import Mathlib

/-!
Verification of the heightfield filtering passes of `RecastFilter.cpp`
(`rcFilterLowHangingWalkableObstacles`, `rcFilterLedgeSpans`,
`rcFilterWalkableLowHeightSpans`, `_EvaluateRuggedArea`,
`_InitSpanListInColume`, `rcFilterRuggedAreaSpans`).

The heightfield is a grid of columns; a column is the bottom-to-top list of
its spans.  Following the design notes of the specification, the C++
linked-list-of-spans representation is embedded as `List Span` per column
("next" becomes "index + 1"), and `rcSpan*` pointer identity becomes handle
equality on `(column index, span index)` pairs.  Machine integers are
embedded as `Int`/`Nat` (the C++ code does all height arithmetic on `int`);
the `float` slope threshold of the rugged pass is embedded as `ℚ` with exact
division.  In-place area mutation is embedded by explicit state passing of
the heightfield value, in the exact raster iteration order of the C++ loops.
-/

namespace Recast

/-- Modelled from the spec: `RC_NULL_AREA`, the null/unwalkable area id, is
declared in `Recast.h`, which is not part of the provided sources.  The spec
describes the classification as "null/unwalkable" versus positive walkable
ids, so the sentinel is 0. -/
def RC_NULL_AREA : Nat := 0

/-- Modelled from the spec: `RC_WALKABLE_AREA`, the ordinary walkable
classification, is declared in `Recast.h` (not in the provided sources) as
the maximum value representable in the 6-bit area field, 63. -/
def RC_WALKABLE_AREA : Nat := 63

/-- Sentinel used by the filters as "unbounded ceiling" and as the initial
lowest-neighbor-floor difference (`MAX_HEIGHTFIELD_HEIGHT = 0xffff` in
`RecastFilter.cpp`). -/
def MAX_HEIGHTFIELD_HEIGHT : Int := 0xffff

/-- A heightfield span: minimum height, maximum height and area id
(`rcSpan.smin`, `rcSpan.smax`, `rcSpan.area`). -/
structure Span where
  smin : Nat
  smax : Nat
  area : Nat
deriving DecidableEq

instance : Inhabited Span := ⟨⟨0, 0, 0⟩⟩

/-- A column of spans, bottom to top (the `rcSpan::next` chain). -/
abbrev Column := List Span

/-- A heightfield: grid dimensions and the list of columns, indexed by
`x + z * width` exactly as `heightfield.spans` in the C++ code. -/
structure Heightfield where
  width : Nat
  height : Nat
  spans : List Column
deriving DecidableEq

/-- The span chain of column `i` (`heightfield.spans[i]`); an index outside
the list reads as the empty chain. -/
def Heightfield.column (hf : Heightfield) (i : Nat) : Column :=
  hf.spans.getD i []

/-- A span handle, standing in for an `rcSpan*` pointer: the column index and
the position of the span inside its column. -/
abbrev Handle := Nat × Nat

/-- The span a handle points at, if any. -/
def spanAt (hf : Heightfield) (p : Handle) : Option Span :=
  (hf.column p.1)[p.2]?

/-- The area id a handle reads (`p->area`); a dangling handle reads the
default span. -/
def areaAt (hf : Heightfield) (p : Handle) : Nat :=
  ((hf.column p.1)[p.2]?.getD default).area

/-- The floor a handle reads (`(int)p->smax`); a dangling handle reads the
default span. -/
def floorAt (hf : Heightfield) (p : Handle) : Int :=
  (((hf.column p.1)[p.2]?.getD default).smax : Int)

/-- Replace the element at one position of a list, leaving the list unchanged
when the index is out of range. -/
def listModify (f : α → α) : Nat → List α → List α
  | _, [] => []
  | 0, a :: l => f a :: l
  | n + 1, a :: l => a :: listModify f n l

/-- Overwrite the area id of a span (`span->area = a`). -/
def setArea (a : Nat) (s : Span) : Span := { s with area := a }

/-- In-place area write through a handle (`p->area = a` in the C++ code):
every other field and every other span is untouched. -/
def modifyArea (hf : Heightfield) (i j : Nat) (a : Nat) : Heightfield :=
  { hf with spans := listModify (listModify (setArea a) j) i hf.spans }

/-- The ceiling obtained from the span that sits at index `j + 1` of a
column (`span->next ? span->next->smin : MAX_HEIGHTFIELD_HEIGHT`). -/
def colCeiling (col : Column) (j : Nat) : Int :=
  match col[j + 1]? with
  | none => MAX_HEIGHTFIELD_HEIGHT
  | some n => (n.smin : Int)

/-- The `smin` of the first span of a list of spans, or the unbounded
sentinel when the list is empty (`s ? s->smin : MAX_HEIGHTFIELD_HEIGHT`). -/
def headCeiling : Column → Int
  | [] => MAX_HEIGHTFIELD_HEIGHT
  | n :: _ => (n.smin : Int)

/-! ### rcFilterLowHangingWalkableObstacles -/

/-- One column of `rcFilterLowHangingWalkableObstacles`: walk the spans
bottom to top carrying the previous span's floor, its original walkability
and its (possibly promoted) area id, exactly as the C++ loop does. -/
def lowHangingColumnGo (walkableClimb : Int) :
    Column → Nat → Bool → Nat → Column
  | [], _, _, _ => []
  | span :: rest, previousSmax, previousWasWalkable, previousAreaID =>
    let walkable : Bool := decide (span.area ≠ RC_NULL_AREA)
    let newArea : Nat :=
      if walkable = false ∧ previousWasWalkable = true ∧
          (span.smax : Int) - (previousSmax : Int) ≤ walkableClimb
      then previousAreaID
      else span.area
    { span with area := newArea } ::
      lowHangingColumnGo walkableClimb rest span.smax walkable newArea

/-- Process the columns of the grid in index order `0, 1, …`; the C++ double
loop over `z` then `x` touches exactly the cells with index below
`width * height`, so columns past that bound are left untouched. -/
def lowHangingCols (walkableClimb : Int) (bound : Nat) :
    Nat → List Column → List Column
  | _, [] => []
  | k, c :: rest =>
    (if k < bound then lowHangingColumnGo walkableClimb c 0 false RC_NULL_AREA
     else c) :: lowHangingCols walkableClimb bound (k + 1) rest

/-- `rcFilterLowHangingWalkableObstacles`: promote a non-walkable span to the
area of the walkable span directly below it when the step up is at most
`walkableClimb`. -/
def rcFilterLowHangingWalkableObstacles (walkableClimb : Int)
    (hf : Heightfield) : Heightfield :=
  { hf with spans :=
      lowHangingCols walkableClimb (hf.width * hf.height) 0 hf.spans }

/-! ### rcFilterWalkableLowHeightSpans -/

/-- One column of `rcFilterWalkableLowHeightSpans`: demote every span whose
clearance `ceiling - floor` is below `walkableHeight`. -/
def lowHeightColumnGo (walkableHeight : Int) : Column → Column
  | [] => []
  | span :: rest =>
    let floor : Int := span.smax
    let ceiling : Int := headCeiling rest
    (if ceiling - floor < walkableHeight then { span with area := RC_NULL_AREA }
     else span) :: lowHeightColumnGo walkableHeight rest

/-- Process the columns of the grid in index order for the low-height filter,
mirroring the `z`/`x` double loop. -/
def lowHeightCols (walkableHeight : Int) (bound : Nat) :
    Nat → List Column → List Column
  | _, [] => []
  | k, c :: rest =>
    (if k < bound then lowHeightColumnGo walkableHeight c else c) ::
      lowHeightCols walkableHeight bound (k + 1) rest

/-- `rcFilterWalkableLowHeightSpans`: remove the walkable flag from spans
without enough space above them. -/
def rcFilterWalkableLowHeightSpans (walkableHeight : Int)
    (hf : Heightfield) : Heightfield :=
  { hf with spans :=
      lowHeightCols walkableHeight (hf.width * hf.height) 0 hf.spans }

/-! ### rcFilterLedgeSpans -/

/-- Modelled from the spec: `rcGetDirOffsetX` is declared in `Recast.h`,
which is not part of the provided sources; the spec describes the scan as
visiting the 4 grid-adjacent neighbor columns (±x, ±z), which is the
reference offset table `{-1, 0, 1, 0}`. -/
def rcGetDirOffsetX (direction : Nat) : Int :=
  [-1, 0, 1, 0].getD (direction % 4) 0

/-- Modelled from the spec: `rcGetDirOffsetY` is declared in `Recast.h`
(not in the provided sources); the reference offset table is
`{0, 1, 0, -1}`. -/
def rcGetDirOffsetY (direction : Nat) : Int :=
  [0, 1, 0, -1].getD (direction % 4) 0

/-- The ceiling under the bottom-most span of a column
(`neighborSpan ? neighborSpan->smin : MAX_HEIGHTFIELD_HEIGHT` with
`neighborSpan` the head of the neighbor column). -/
def bottomCeiling (hf : Heightfield) (ci : Nat) : Int :=
  headCeiling (hf.column ci)

/-- The inner neighbor-column loop of `rcFilterLedgeSpans`: scan a neighbor
column bottom to top, accumulating `(lowestNeighborFloorDifference,
lowestTraversableNeighborFloor, highestTraversableNeighborFloor)`.  A
neighbor span without enough vertical overlap is skipped; a qualifying span
folds its floor difference into the minimum, and its floor into the min/max
of traversable floors when the difference is within `walkableClimb`; a drop
steeper than `walkableClimb` ends the scan of this column early. -/
def scanNeighborColumn (walkableHeight walkableClimb floor ceiling : Int) :
    Column → Int × Int × Int → Int × Int × Int
  | [], acc => acc
  | ns :: rest, (lnfd, lo, hi) =>
    let neighborFloor : Int := ns.smax
    let neighborCeiling : Int := headCeiling rest
    if min ceiling neighborCeiling - max floor neighborFloor < walkableHeight
    then scanNeighborColumn walkableHeight walkableClimb floor ceiling rest
           (lnfd, lo, hi)
    else
      let neighborFloorDifference := neighborFloor - floor
      let lnfd2 := min lnfd neighborFloorDifference
      if |neighborFloorDifference| ≤ walkableClimb then
        scanNeighborColumn walkableHeight walkableClimb floor ceiling rest
          (lnfd2, min lo neighborFloor, max hi neighborFloor)
      else if neighborFloorDifference < -walkableClimb then
        (lnfd2, lo, hi)
      else
        scanNeighborColumn walkableHeight walkableClimb floor ceiling rest
          (lnfd2, lo, hi)

/-- The 4-direction loop of `rcFilterLedgeSpans` for one span.  An
out-of-bounds neighbor, or a neighbor whose sub-floor region already offers
`walkableHeight` of clearance below the current span, overwrites the lowest
difference with the sentinel `-walkableClimb - 1` and stops the whole
direction scan; otherwise the neighbor column is scanned span by span. -/
def scanDirs (walkableHeight walkableClimb : Int) (hf : Heightfield)
    (x z : Nat) (floor ceiling : Int) :
    List Nat → Int × Int × Int → Int × Int × Int
  | [], acc => acc
  | direction :: rest, (lnfd, lo, hi) =>
    let neighborX : Int := (x : Int) + rcGetDirOffsetX direction
    let neighborZ : Int := (z : Int) + rcGetDirOffsetY direction
    if neighborX < 0 ∨ neighborZ < 0 ∨ (hf.width : Int) ≤ neighborX ∨
        (hf.height : Int) ≤ neighborZ then
      (-walkableClimb - 1, lo, hi)
    else
      let ni : Nat := neighborX.toNat + neighborZ.toNat * hf.width
      if walkableHeight ≤ min ceiling (bottomCeiling hf ni) - floor then
        (-walkableClimb - 1, lo, hi)
      else
        scanDirs walkableHeight walkableClimb hf x z floor ceiling rest
          (scanNeighborColumn walkableHeight walkableClimb floor ceiling
            (hf.column ni) (lnfd, lo, hi))

/-- The classification decision of `rcFilterLedgeSpans` for one walkable
span: run the 4-direction scan starting from
`(MAX_HEIGHTFIELD_HEIGHT, smax, smax)` and demote the span when the lowest
neighbor floor difference drops below `-walkableClimb`, or when the
traversable neighbor floors spread by more than `walkableClimb`. -/
def ledgeSpanNewArea (walkableHeight walkableClimb : Int) (hf : Heightfield)
    (x z : Nat) (s : Span) (ceiling : Int) : Nat :=
  let floor : Int := s.smax
  let r := scanDirs walkableHeight walkableClimb hf x z floor ceiling
    [0, 1, 2, 3] (MAX_HEIGHTFIELD_HEIGHT, floor, floor)
  if r.1 < -walkableClimb then RC_NULL_AREA
  else if walkableClimb < r.2.2 - r.2.1 then RC_NULL_AREA
  else s.area

/-- The scan tuple computed by `rcFilterLedgeSpans` for the span stored at
handle `(i, j)` (floor `smax`, ceiling from the next span in the column). -/
def ledgeScanResult (walkableHeight walkableClimb : Int) (hf : Heightfield)
    (i j : Nat) (s : Span) : Int × Int × Int :=
  scanDirs walkableHeight walkableClimb hf (i % hf.width) (i / hf.width)
    (s.smax : Int) (colCeiling (hf.column i) j) [0, 1, 2, 3]
    (MAX_HEIGHTFIELD_HEIGHT, (s.smax : Int), (s.smax : Int))

/-- One column of the two-phase (snapshot) variant of `rcFilterLedgeSpans`:
every decision is taken against the frozen heightfield `hf`. -/
def ledgeColumnGo (walkableHeight walkableClimb : Int) (hf : Heightfield)
    (x z : Nat) : Column → Column
  | [] => []
  | s :: rest =>
    (if s.area = RC_NULL_AREA then s
     else
       let a := ledgeSpanNewArea walkableHeight walkableClimb hf x z s
         (headCeiling rest)
       { s with area := a }) ::
      ledgeColumnGo walkableHeight walkableClimb hf x z rest

/-- Columns of the snapshot variant, in grid index order with the same cell
bound as the C++ double loop. -/
def ledgeSnapshotCols (walkableHeight walkableClimb : Int)
    (hf : Heightfield) (bound : Nat) : Nat → List Column → List Column
  | _, [] => []
  | k, c :: rest =>
    (if k < bound then
       ledgeColumnGo walkableHeight walkableClimb hf (k % hf.width)
         (k / hf.width) c
     else c) ::
      ledgeSnapshotCols walkableHeight walkableClimb hf bound (k + 1) rest

/-- Two-phase variant of `rcFilterLedgeSpans`: all demotion decisions are
taken against an immutable snapshot of the input, then applied. -/
def rcFilterLedgeSpansSnapshot (walkableHeight walkableClimb : Int)
    (hf : Heightfield) : Heightfield :=
  { hf with spans :=
      ledgeSnapshotCols walkableHeight walkableClimb hf (hf.width * hf.height) 0 hf.spans }

/-- One cell of the in-place `rcFilterLedgeSpans`, walking the column bottom
to top: each span's decision reads the current (partially mutated)
heightfield, exactly as the C++ pass does; non-walkable spans are skipped.
The first argument is the number of spans still to visit. -/
def ledgeCellGo (walkableHeight walkableClimb : Int) (i : Nat) :
    Nat → Nat → Heightfield → Heightfield
  | 0, _, hf => hf
  | n + 1, j, hf =>
    let hf2 :=
      match (hf.column i)[j]? with
      | none => hf
      | some s =>
        if s.area = RC_NULL_AREA then hf
        else
          modifyArea hf i j
            (ledgeSpanNewArea walkableHeight walkableClimb hf
              (i % hf.width) (i / hf.width) s (colCeiling (hf.column i) j))
    ledgeCellGo walkableHeight walkableClimb i n (j + 1) hf2

/-- Process one grid cell of `rcFilterLedgeSpans` in place. -/
def ledgeCellStep (walkableHeight walkableClimb : Int) (hf : Heightfield)
    (i : Nat) : Heightfield :=
  ledgeCellGo walkableHeight walkableClimb i (hf.column i).length 0 hf

/-- Process the listed grid cells of `rcFilterLedgeSpans` in order,
threading the mutated heightfield. -/
def ledgeCellsGo (walkableHeight walkableClimb : Int) :
    List Nat → Heightfield → Heightfield
  | [], hf => hf
  | i :: rest, hf =>
    ledgeCellsGo walkableHeight walkableClimb rest
      (ledgeCellStep walkableHeight walkableClimb hf i)

/-- `rcFilterLedgeSpans`: mark walkable spans adjacent to a ledge as
unwalkable, visiting the cells in the raster order `x + z * width` of the
C++ double loop and mutating areas in place. -/
def rcFilterLedgeSpans (walkableHeight walkableClimb : Int)
    (hf : Heightfield) : Heightfield :=
  ledgeCellsGo walkableHeight walkableClimb
    (List.range (hf.width * hf.height)) hf

/-! ### rcFilterRuggedAreaSpans

Chains (`std::vector<rcSpan*>`) are embedded as lists of handles; pointer
equality `ConnectedSpanList.back() == CurrentSpan` becomes handle equality.
The C++ `float` slope threshold and `avgSlope` computation are embedded as
exact rational arithmetic. -/

/-- A connected-span chain (`std::vector<rcSpan*>`) as handles. -/
abbrev Chain := List Handle

/-- Append `nh` to the first chain whose last element is the handle `cur`
(the `for (auto& ConnectedSpanList : …) if (ConnectedSpanList.back() ==
CurrentSpan) { push_back; break; }` loop). -/
def appendToFirstMatching (cur nh : Handle) : List Chain → List Chain
  | [] => []
  | c :: rest =>
    if c.getLast? = some cur then (c ++ [nh]) :: rest
    else c :: appendToFirstMatching cur nh rest

/-- The scan of the neighbor column for one current span of the rugged
pass: non-walkable neighbor spans are skipped (`continue`), and every
neighbor span within `walkableClimb` of the current floor is offered to
`appendToFirstMatching`; the scan then continues with the next neighbor
span. -/
def ruggedScanNeighbors (walkableClimb : Int) (currentFloor : Int)
    (cur : Handle) (ni : Nat) :
    Column → Nat → List Chain → List Chain
  | [], _, chains => chains
  | ns :: rest, j, chains =>
    if ns.area = RC_NULL_AREA then
      ruggedScanNeighbors walkableClimb currentFloor cur ni rest (j + 1)
        chains
    else
      let difference := |currentFloor - (ns.smax : Int)|
      let chains2 :=
        if difference ≤ walkableClimb then
          appendToFirstMatching cur (ni, j) chains
        else chains
      ruggedScanNeighbors walkableClimb currentFloor cur ni rest (j + 1)
        chains2

/-- The scan of the current column for one sample step of the rugged pass:
the first non-walkable span ends the column scan (`break`); every walkable
current span scans the whole neighbor column. -/
def ruggedScanCurrents (walkableClimb : Int) (hf : Heightfield)
    (ci ni : Nat) : Column → Nat → List Chain → List Chain
  | [], _, chains => chains
  | cs :: rest, j, chains =>
    if cs.area = RC_NULL_AREA then chains
    else
      let chains2 := ruggedScanNeighbors walkableClimb (cs.smax : Int)
        (ci, j) ni (hf.column ni) 0 chains
      ruggedScanCurrents walkableClimb hf ci ni rest (j + 1) chains2

/-- `MAX_SLOPE_SAMPLE_STEP` of `rcFilterRuggedAreaSpans`. -/
def MAX_SLOPE_SAMPLE_STEP : Nat := 9

/-- The X-axis step loop: advance the current/neighbor cursor pair along
+x for up to the given number of steps, stopping at the grid edge. -/
def ruggedBuildX (walkableClimb : Int) (hf : Heightfield) (z : Nat) :
    Nat → Nat → List Chain → List Chain
  | 0, _, chains => chains
  | stepsLeft + 1, cx, chains =>
    if hf.width ≤ cx + 1 then chains
    else
      let chains2 := ruggedScanCurrents walkableClimb hf (cx + z * hf.width)
        (cx + 1 + z * hf.width) (hf.column (cx + z * hf.width)) 0 chains
      ruggedBuildX walkableClimb hf z stepsLeft (cx + 1) chains2

/-- The Z-axis step loop: advance the current/neighbor cursor pair along
+z for up to the given number of steps, stopping at the grid edge. -/
def ruggedBuildZ (walkableClimb : Int) (hf : Heightfield) (x : Nat) :
    Nat → Nat → List Chain → List Chain
  | 0, _, chains => chains
  | stepsLeft + 1, cz, chains =>
    if hf.height ≤ cz + 1 then chains
    else
      let chains2 := ruggedScanCurrents walkableClimb hf (x + cz * hf.width)
        (x + (cz + 1) * hf.width) (hf.column (x + cz * hf.width)) 0 chains
      ruggedBuildZ walkableClimb hf x stepsLeft (cz + 1) chains2

/-- `_InitSpanListInColume(span)`: one singleton chain per span of the
origin column from the origin span upward, in bottom-to-top order. -/
def _InitSpanListInColume (hf : Heightfield) (ci j : Nat) : List Chain :=
  (List.range ((hf.column ci).length - j)).map fun k => [(ci, j + k)]

/-- Decidability of a rational threshold comparison against an integer
quotient, by integer cross-multiplication: `Rat` division and
multiplication are irreducible, so this instance is what lets the average
slope test of `_EvaluateRuggedArea` evaluate inside the kernel.  The
proposition decided is still the exact `SlopeThreshold ≤ TotalDiff / count`
comparison of the source. -/
instance ratThresholdDec (t : ℚ) (a : Int) (b : Nat) :
    Decidable (t ≤ (a : ℚ) / (b : ℚ)) :=
  if hb : b = 0 then
    decidable_of_iff (t ≤ 0) (by subst hb; norm_num)
  else
    decidable_of_iff (t.num * (b : Int) ≤ a * (t.den : Int)) (by
      have hb0 : (0 : ℚ) < (b : ℚ) := by
        exact_mod_cast Nat.pos_of_ne_zero hb
      have hden : (0 : ℚ) < ((t.den : Nat) : ℚ) := by
        exact_mod_cast t.pos
      have hnum : (t.num : ℚ) = t * t.den :=
        (div_eq_iff (ne_of_gt hden)).mp (Rat.num_div_den t)
      rw [le_div_iff₀ hb0]
      constructor
      · intro h
        have h4 : (t.num : ℚ) * (b : ℚ) ≤ (a : ℚ) * (t.den : ℚ) := by
          exact_mod_cast h
        rw [hnum, show (t * (t.den : ℚ)) * (b : ℚ) = t * b * t.den from by
          ring] at h4
        exact le_of_mul_le_mul_right h4 hden
      · intro h
        have h4 : t * b * t.den ≤ (a : ℚ) * t.den :=
          mul_le_mul_of_nonneg_right h hden.le
        rw [show t * (b : ℚ) * (t.den : ℚ) = (t * t.den) * b from by ring,
          ← hnum] at h4
        exact_mod_cast h4)

/-- Sum of the absolute successive floor differences along a chain
(`TotalDiff` in `_EvaluateRuggedArea`). -/
def chainTotalDiff (hf : Heightfield) (chain : Chain) : Int :=
  (chain.zip chain.tail).foldl
    (fun acc pq => acc + |floorAt hf pq.1 - floorAt hf pq.2|) 0

/-- Relabel every span of a chain to the rugged area id (the
`ConnectedSpanList[n]->area = RuggedAreaID` loop). -/
def relabelChain (ruggedAreaID : Nat) (hf : Heightfield) (chain : Chain) :
    Heightfield :=
  chain.foldl (fun h p => modifyArea h p.1 p.2 ruggedAreaID) hf

/-- `_EvaluateRuggedArea`: for each chain in order, skip it when its first
span's area is not `RC_WALKABLE_AREA`; otherwise, when the chain has at
least one step and the average absolute step height reaches the slope
threshold, relabel every span of the chain to `ruggedAreaID`.  The C++
`float` average is embedded as the exact rational
`TotalDiff / TotalConnectedSpanCount`. -/
def _EvaluateRuggedArea (SlopeThreshold : ℚ) (RuggedAreaID : Nat)
    (hf : Heightfield) : List Chain → Heightfield
  | [] => hf
  | chain :: rest =>
    let hf2 :=
      match chain with
      | [] => hf
      | p :: _ =>
        match spanAt hf p with
        | none => hf
        | some startSpan =>
          if startSpan.area ≠ RC_WALKABLE_AREA then hf
          else
            let totalDiff := chainTotalDiff hf chain
            let count : Nat := chain.length - 1
            if 0 < count ∧
                SlopeThreshold ≤ (totalDiff : ℚ) / (count : ℚ) then
              relabelChain RuggedAreaID hf chain
            else hf
    _EvaluateRuggedArea SlopeThreshold RuggedAreaID hf2 rest

/-- The X-axis phase for one origin span: build the chains from the origin
column and evaluate them. -/
def ruggedOriginXPhase (walkableClimb : Int) (SlopeThreshold : ℚ)
    (RuggedAreaID : Nat) (hf : Heightfield) (x z j : Nat) : Heightfield :=
  _EvaluateRuggedArea SlopeThreshold RuggedAreaID hf
    (ruggedBuildX walkableClimb hf z MAX_SLOPE_SAMPLE_STEP x
      (_InitSpanListInColume hf (x + z * hf.width) j))

/-- Process one origin span of `rcFilterRuggedAreaSpans`: skip non-walkable
origins; run the X-axis phase; run the Z-axis phase only when the origin
span's area is not already `RuggedAreaID` afterwards. -/
def ruggedProcessOrigin (walkableClimb : Int) (SlopeThreshold : ℚ)
    (RuggedAreaID : Nat) (hf : Heightfield) (x z j : Nat) : Heightfield :=
  match (hf.column (x + z * hf.width))[j]? with
  | none => hf
  | some s =>
    if s.area = RC_NULL_AREA then hf
    else
      let hf1 := ruggedOriginXPhase walkableClimb SlopeThreshold RuggedAreaID
        hf x z j
      if areaAt hf1 (x + z * hf.width, j) ≠ RuggedAreaID then
        _EvaluateRuggedArea SlopeThreshold RuggedAreaID hf1
          (ruggedBuildZ walkableClimb hf1 x MAX_SLOPE_SAMPLE_STEP z
            (_InitSpanListInColume hf1 (x + z * hf.width) j))
      else hf1

/-- Process every origin span of one grid cell, bottom to top. -/
def ruggedOriginsGo (walkableClimb : Int) (SlopeThreshold : ℚ)
    (RuggedAreaID : Nat) (x z : Nat) :
    Nat → Nat → Heightfield → Heightfield
  | 0, _, hf => hf
  | n + 1, j, hf =>
    ruggedOriginsGo walkableClimb SlopeThreshold RuggedAreaID x z n (j + 1)
      (ruggedProcessOrigin walkableClimb SlopeThreshold RuggedAreaID hf x z j)

/-- Process one grid cell of `rcFilterRuggedAreaSpans`. -/
def ruggedCellStep (walkableClimb : Int) (SlopeThreshold : ℚ)
    (RuggedAreaID : Nat) (hf : Heightfield) (i : Nat) : Heightfield :=
  ruggedOriginsGo walkableClimb SlopeThreshold RuggedAreaID (i % hf.width)
    (i / hf.width) (hf.column i).length 0 hf

/-- Process the listed grid cells of `rcFilterRuggedAreaSpans` in order. -/
def ruggedCellsGo (walkableClimb : Int) (SlopeThreshold : ℚ)
    (RuggedAreaID : Nat) : List Nat → Heightfield → Heightfield
  | [], hf => hf
  | i :: rest, hf =>
    ruggedCellsGo walkableClimb SlopeThreshold RuggedAreaID rest
      (ruggedCellStep walkableClimb SlopeThreshold RuggedAreaID hf i)

/-- `rcFilterRuggedAreaSpans`: mark spans whose average stepped slope along
an axis reaches `SlopeThreshold` with `RuggedAreaID`.  The `walkableHeight`
parameter is accepted but never read, exactly as in the C++ function. -/
def rcFilterRuggedAreaSpans (walkableHeight walkableClimb : Int)
    (SlopeThreshold : ℚ) (RuggedAreaID : Nat) (hf : Heightfield) :
    Heightfield :=
  let _ := walkableHeight
  ruggedCellsGo walkableClimb SlopeThreshold RuggedAreaID
    (List.range (hf.width * hf.height)) hf

/-- The geometry of a span: its `(smin, smax)` pair, everything the ledge
and rugged scans read from spans other than the visited one. -/
def spanGeom (s : Span) : Nat × Nat := (s.smin, s.smax)

/-- Two heightfields with the same dimensions and the same span geometry
everywhere; they may differ only in area ids. -/
def geomEq (hf1 hf2 : Heightfield) : Prop :=
  hf1.width = hf2.width ∧ hf1.height = hf2.height ∧
    hf1.spans.map (List.map spanGeom) = hf2.spans.map (List.map spanGeom)

/-- Decision of `_EvaluateRuggedArea` for one chain against a fixed
heightfield: the first span is ordinarily walkable, the chain has at least
one step, and the average absolute step height reaches the threshold. -/
def chainMarkedB (SlopeThreshold : ℚ) (hf : Heightfield) (c : Chain) :
    Bool :=
  match c with
  | [] => false
  | p :: _ =>
    decide (areaAt hf p = RC_WALKABLE_AREA) && decide (1 < c.length) &&
      decide (SlopeThreshold ≤
        (chainTotalDiff hf c : ℚ) / (((c.length - 1 : Nat) : ℚ)))

/-- No chain's first element occurs in an earlier chain of the list (chain
heads are never relabeled by the evaluation of another chain). -/
def headsFreshB : List Chain → Bool
  | [] => true
  | c :: rest =>
    (rest.all fun c2 =>
      match c2.head? with
      | none => true
      | some p => decide (p ∉ c)) && headsFreshB rest

/-- Every handle of every chain points at an existing span. -/
def chainsValidB (hf : Heightfield) (L : List Chain) : Bool :=
  L.all fun c => c.all fun p => (spanAt hf p).isSome

/-- Variant of `ruggedScanNeighbors` written from the specification's words
for the rugged sample step: "append the neighbor span to whichever existing
chain's last element currently equals this current span (first match only
…), then continue to the next current-coordinate span candidate" — that is,
a successful append ends the scan of the neighbor column for this current
span.  Used to compare the claimed behavior with the code's. -/
def ruggedScanNeighborsClaimed (walkableClimb : Int) (currentFloor : Int)
    (cur : Handle) (ni : Nat) :
    Column → Nat → List Chain → List Chain
  | [], _, chains => chains
  | ns :: rest, j, chains =>
    if ns.area = RC_NULL_AREA then
      ruggedScanNeighborsClaimed walkableClimb currentFloor cur ni rest
        (j + 1) chains
    else
      let difference := |currentFloor - (ns.smax : Int)|
      if difference ≤ walkableClimb ∧ (∃ c ∈ chains, c.getLast? = some cur)
      then appendToFirstMatching cur (ni, j) chains
      else
        ruggedScanNeighborsClaimed walkableClimb currentFloor cur ni rest
          (j + 1) chains

/-- The current-column scan built on the claimed neighbor scan. -/
def ruggedScanCurrentsClaimed (walkableClimb : Int) (hf : Heightfield)
    (ci ni : Nat) : Column → Nat → List Chain → List Chain
  | [], _, chains => chains
  | cs :: rest, j, chains =>
    if cs.area = RC_NULL_AREA then chains
    else
      let chains2 := ruggedScanNeighborsClaimed walkableClimb
        (cs.smax : Int) (ci, j) ni (hf.column ni) 0 chains
      ruggedScanCurrentsClaimed walkableClimb hf ci ni rest (j + 1) chains2

/-! ### Concrete heightfields used by witnesses and counterexamples -/

/-- A flat walkable 3×3 grid: every column is a single span with floor 0 and
area 1. -/
def hfW : Heightfield :=
  ⟨3, 3, [[⟨0, 0, 1⟩], [⟨0, 0, 1⟩], [⟨0, 0, 1⟩], [⟨0, 0, 1⟩], [⟨0, 0, 1⟩],
    [⟨0, 0, 1⟩], [⟨0, 0, 1⟩], [⟨0, 0, 1⟩], [⟨0, 0, 1⟩]]⟩

/-- A single column holding a walkable span with a non-walkable span right
above it. -/
def hfW2 : Heightfield := ⟨1, 1, [[⟨0, 1, 1⟩, ⟨2, 3, 0⟩]]⟩

/-- Two adjacent columns where the neighbor's bottom span leaves at least
`walkableHeight` of clearance under it. -/
def hfW6 : Heightfield := ⟨2, 1, [[⟨0, 0, 1⟩], [⟨50, 50, 1⟩]]⟩

/-- Two adjacent walkable columns with floors 0 and 2. -/
def hfC3 : Heightfield := ⟨2, 1, [[⟨0, 0, 63⟩], [⟨0, 2, 63⟩]]⟩

/-- A straight 10-cell line along the X axis of single-span walkable
columns whose floors increase by exactly 2 per cell. -/
def hfLine10 : Heightfield :=
  ⟨10, 1, [[⟨0, 0, 63⟩], [⟨0, 2, 63⟩], [⟨0, 4, 63⟩], [⟨0, 6, 63⟩],
    [⟨0, 8, 63⟩], [⟨0, 10, 63⟩], [⟨0, 12, 63⟩], [⟨0, 14, 63⟩],
    [⟨0, 16, 63⟩], [⟨0, 18, 63⟩]]⟩

/-- The same 10-cell line with every span relabeled to area 10. -/
def hfLine10Marked : Heightfield :=
  ⟨10, 1, [[⟨0, 0, 10⟩], [⟨0, 2, 10⟩], [⟨0, 4, 10⟩], [⟨0, 6, 10⟩],
    [⟨0, 8, 10⟩], [⟨0, 10, 10⟩], [⟨0, 12, 10⟩], [⟨0, 14, 10⟩],
    [⟨0, 16, 10⟩], [⟨0, 18, 10⟩]]⟩

/-- An isolated single step of height 1: two walkable columns with floors 0
and 1. -/
def hfStep2 : Heightfield := ⟨2, 1, [[⟨0, 0, 63⟩], [⟨0, 1, 63⟩]]⟩

/-- Three columns in a row: the first holds two stacked walkable spans with
floors 1 and 3, the second a single walkable span with floor 2, the third
two walkable spans with floors 0 and 4.  Both spans of the first column can
step to the middle span, so two chains converge on the same tip, and both
spans of the third column are within climbing range of the middle span. -/
def hfC7 : Heightfield :=
  ⟨3, 1, [[⟨0, 1, 63⟩, ⟨2, 3, 63⟩], [⟨0, 2, 63⟩], [⟨0, 0, 63⟩, ⟨3, 4, 63⟩]]⟩

/-- Two chains that have already converged on the span of column 1 of
`hfC7`. -/
def chainsC7 : List Chain := [[(0, 0), (1, 0)], [(0, 1), (1, 0)]]

/-! ## Basic lemmas about the embedding -/

theorem listModify_nil (f : α → α) (n : Nat) : listModify f n [] = [] := by
  cases n <;> rfl

theorem listModify_length (f : α → α) :
    ∀ (n : Nat) (l : List α), (listModify f n l).length = l.length := by
  intro n l
  induction l generalizing n with
  | nil => rw [listModify_nil]
  | cons a l ih => cases n <;> simp [listModify, ih]

theorem listModify_getElem? (f : α → α) :
    ∀ (n : Nat) (l : List α) (m : Nat),
      (listModify f n l)[m]? = if m = n then l[m]?.map f else l[m]? := by
  intro n l
  induction l generalizing n with
  | nil => intro m; rw [listModify_nil]; simp
  | cons a l ih =>
    intro m
    cases n with
    | zero => cases m <;> simp [listModify]
    | succ n =>
      cases m with
      | zero => simp [listModify]
      | succ m => simpa [listModify] using ih n m

theorem listModify_map (f : α → α) (g : α → β) (hfg : ∀ a, g (f a) = g a) :
    ∀ (n : Nat) (l : List α), (listModify f n l).map g = l.map g := by
  intro n l
  induction l generalizing n with
  | nil => rw [listModify_nil]
  | cons a l ih => cases n <;> simp [listModify, hfg, ih]

theorem column_def (hf : Heightfield) (i : Nat) :
    hf.column i = hf.spans[i]?.getD [] := by
  simp [Heightfield.column, List.getD_eq_getElem?_getD]

theorem modifyArea_width (hf : Heightfield) (i j a : Nat) :
    (modifyArea hf i j a).width = hf.width := rfl

theorem modifyArea_height (hf : Heightfield) (i j a : Nat) :
    (modifyArea hf i j a).height = hf.height := rfl

theorem spanGeom_setArea (a : Nat) (s : Span) :
    spanGeom (setArea a s) = spanGeom s := rfl

theorem geomEq_refl (hf : Heightfield) : geomEq hf hf := ⟨rfl, rfl, rfl⟩

theorem geomEq_symm {hf1 hf2 : Heightfield} (h : geomEq hf1 hf2) :
    geomEq hf2 hf1 := ⟨h.1.symm, h.2.1.symm, h.2.2.symm⟩

theorem geomEq_trans {hf1 hf2 hf3 : Heightfield} (h : geomEq hf1 hf2)
    (h' : geomEq hf2 hf3) : geomEq hf1 hf3 :=
  ⟨h.1.trans h'.1, h.2.1.trans h'.2.1, h.2.2.trans h'.2.2⟩

theorem geomEq_modifyArea (hf : Heightfield) (i j a : Nat) :
    geomEq (modifyArea hf i j a) hf := by
  refine ⟨rfl, rfl, ?_⟩
  show (listModify (listModify (setArea a) j) i hf.spans).map _ = _
  exact listModify_map _ _
    (fun col => listModify_map _ _ (fun s => spanGeom_setArea a s) j col) i
    hf.spans

theorem geomEq_column {hf1 hf2 : Heightfield} (h : geomEq hf1 hf2)
    (i : Nat) :
    (hf1.column i).map spanGeom = (hf2.column i).map spanGeom := by
  have hmaps := congrArg (fun l => l[i]?) h.2.2
  simp only [List.getElem?_map] at hmaps
  rw [column_def, column_def]
  cases h1 : hf1.spans[i]? with
  | none =>
    rw [h1] at hmaps
    cases h2 : hf2.spans[i]? with
    | none => simp
    | some c2 => rw [h2] at hmaps; simp at hmaps
  | some c1 =>
    rw [h1] at hmaps
    cases h2 : hf2.spans[i]? with
    | none => rw [h2] at hmaps; simp at hmaps
    | some c2 =>
      rw [h2] at hmaps
      simpa using hmaps

theorem column_modifyArea (hf : Heightfield) (i j a k : Nat) :
    (modifyArea hf i j a).column k =
      if k = i then listModify (setArea a) j (hf.column k)
      else hf.column k := by
  rw [column_def, column_def]
  show (listModify (listModify (setArea a) j) i hf.spans)[k]?.getD [] = _
  rw [listModify_getElem?]
  by_cases hk : k = i
  · subst hk
    rw [if_pos rfl, if_pos rfl]
    cases h : hf.spans[k]? with
    | none => simp [listModify_nil]
    | some c => simp
  · simp [hk]

theorem areaAt_modifyArea_self (hf : Heightfield) (i j a : Nat)
    (h : ((hf.column i)[j]?).isSome) :
    areaAt (modifyArea hf i j a) (i, j) = a := by
  obtain ⟨s, hs⟩ := Option.isSome_iff_exists.mp h
  simp only [areaAt, column_modifyArea, if_pos rfl, if_true,
    eq_self_iff_true, listModify_getElem?, hs, Option.map_some',
    Option.getD_some]
  rfl

theorem areaAt_modifyArea_ne (hf : Heightfield) (i j a : Nat)
    (p : Handle) (h : p ≠ (i, j)) :
    areaAt (modifyArea hf i j a) p = areaAt hf p := by
  obtain ⟨k, m⟩ := p
  simp only [areaAt, column_modifyArea]
  by_cases hk : k = i
  · subst hk
    have hm : m ≠ j := fun hm => h (by rw [hm])
    simp [listModify_getElem?, hm]
  · simp [hk]

theorem geomEq_getElem?_smax {hf1 hf2 : Heightfield} (h : geomEq hf1 hf2)
    (i j : Nat) :
    ((hf1.column i)[j]?.getD default).smax =
      ((hf2.column i)[j]?.getD default).smax := by
  have hcol := geomEq_column h i
  have hj := congrArg (fun l => l[j]?) hcol
  simp only [List.getElem?_map] at hj
  cases h1 : (hf1.column i)[j]? with
  | none =>
    rw [h1] at hj
    cases h2 : (hf2.column i)[j]? with
    | none => rfl
    | some s2 => rw [h2] at hj; simp at hj
  | some s1 =>
    rw [h1] at hj
    cases h2 : (hf2.column i)[j]? with
    | none => rw [h2] at hj; simp at hj
    | some s2 =>
      rw [h2] at hj
      simp only [Option.map_some', Option.some.injEq] at hj
      simp only [Option.getD_some]
      exact congrArg Prod.snd hj

theorem geomEq_floorAt {hf1 hf2 : Heightfield} (h : geomEq hf1 hf2)
    (p : Handle) : floorAt hf1 p = floorAt hf2 p := by
  simp only [floorAt, geomEq_getElem?_smax h]

theorem colCeiling_cons_succ (c : Span) (rest : Column) (j : Nat) :
    colCeiling (c :: rest) (j + 1) = colCeiling rest j := by
  simp only [colCeiling, List.getElem?_cons_succ]

/-! ## rcFilterLowHangingWalkableObstacles: characterization -/

theorem lowHangingColumnGo_getElem?_succ (wc : Int) :
    ∀ (col : Column) (pS : Nat) (pW : Bool) (pA : Nat) (j : Nat)
      (s t : Span), col[j]? = some s → col[j + 1]? = some t →
      (lowHangingColumnGo wc col pS pW pA)[j + 1]? =
        some { t with area :=
          if t.area = RC_NULL_AREA ∧ s.area ≠ RC_NULL_AREA ∧
              (t.smax : Int) - (s.smax : Int) ≤ wc
          then s.area else t.area } := by
  intro col
  induction col with
  | nil => intro _ _ _ j s t hs _; simp at hs
  | cons c rest ih =>
    intro pS pW pA j s t hs ht
    cases j with
    | zero =>
      have hsc : s = c := by simpa using hs.symm
      subst hsc
      cases rest with
      | nil => simp at ht
      | cons t2 rest2 =>
        have htc : t2 = t := by simpa using ht
        simp only [lowHangingColumnGo, List.getElem?_cons_succ,
          List.getElem?_cons_zero, Option.some.injEq]
        rw [htc]
        by_cases h2 : s.area = RC_NULL_AREA <;> simp [h2]
    | succ j =>
      have hs2 : rest[j]? = some s := by simpa using hs
      have ht2 : rest[j + 1]? = some t := by simpa using ht
      simp only [lowHangingColumnGo, List.getElem?_cons_succ]
      exact ih _ _ _ j s t hs2 ht2

theorem lowHangingCols_getElem? (wc : Int) (bound : Nat) :
    ∀ (l : List Column) (k m : Nat),
      (lowHangingCols wc bound k l)[m]? =
        l[m]?.map fun c =>
          if k + m < bound then lowHangingColumnGo wc c 0 false RC_NULL_AREA
          else c := by
  intro l
  induction l with
  | nil => intro k m; simp [lowHangingCols]
  | cons c rest ih =>
    intro k m
    cases m with
    | zero => simp [lowHangingCols]
    | succ m =>
      have := ih (k + 1) m
      simp only [lowHangingCols, List.getElem?_cons_succ, this,
        Nat.add_succ, Nat.succ_add]

theorem lowHanging_column (wc : Int) (hf : Heightfield) (i : Nat)
    (hi : i < hf.width * hf.height) :
    (rcFilterLowHangingWalkableObstacles wc hf).column i =
      lowHangingColumnGo wc (hf.column i) 0 false RC_NULL_AREA := by
  rw [column_def, column_def]
  show (lowHangingCols wc (hf.width * hf.height) 0 hf.spans)[i]?.getD [] = _
  rw [lowHangingCols_getElem?]
  cases h : hf.spans[i]? with
  | none => simp [lowHangingColumnGo]
  | some c =>
    simp only [Option.map_some', Option.getD_some]
    rw [if_pos (by omega : 0 + i < hf.width * hf.height)]

/-- C2: walking each column bottom to top,
`rcFilterLowHangingWalkableObstacles` rewrites a span's area exactly when
the span is non-walkable, the span immediately below it was originally
walkable, and the floor step `current.smax - previous.smax` is at most
`walkableClimb`, in which case the span receives the preceding span's area
id; and because the walkability carried into the next iteration is the
current span's original walkability, the second of two consecutive
originally-non-walkable spans is never promoted on account of the first's
promotion. -/
theorem C2_low_hanging_promotion (walkableClimb : Int)
    (hwc : 0 ≤ walkableClimb) (hf : Heightfield) (i : Nat)
    (hi : i < hf.width * hf.height) :
    (∀ j s t, (hf.column i)[j]? = some s → (hf.column i)[j + 1]? = some t →
      ((rcFilterLowHangingWalkableObstacles walkableClimb hf).column
          i)[j + 1]? =
        some { t with area :=
          if t.area = RC_NULL_AREA ∧ s.area ≠ RC_NULL_AREA ∧
              (t.smax : Int) - (s.smax : Int) ≤ walkableClimb
          then s.area else t.area }) ∧
    (∀ j s t, (hf.column i)[j]? = some s → (hf.column i)[j + 1]? = some t →
      s.area = RC_NULL_AREA →
      ((rcFilterLowHangingWalkableObstacles walkableClimb hf).column
          i)[j + 1]? = some t) := by
  constructor
  · intro j s t hs ht
    rw [lowHanging_column walkableClimb hf i hi]
    exact lowHangingColumnGo_getElem?_succ walkableClimb (hf.column i) 0
      false RC_NULL_AREA j s t hs ht
  · intro j s t hs ht hs0
    rw [lowHanging_column walkableClimb hf i hi]
    rw [lowHangingColumnGo_getElem?_succ walkableClimb (hf.column i) 0
      false RC_NULL_AREA j s t hs ht]
    rw [if_neg fun hc => hc.2.1 hs0]

theorem C2_witness :
    ((rcFilterLowHangingWalkableObstacles 3 hfW2).column 0)[1]? =
      some (⟨2, 3, 1⟩ : Span) := by
  have h := (C2_low_hanging_promotion 3 (by decide) hfW2 0 (by decide)).1 0
    ⟨0, 1, 1⟩ ⟨2, 3, 0⟩ (by decide) (by decide)
  rw [h]; decide

/-! ## rcFilterWalkableLowHeightSpans: characterization -/

theorem lowHeightColumnGo_getElem? (wh : Int) :
    ∀ (col : Column) (j : Nat),
      (lowHeightColumnGo wh col)[j]? =
        col[j]?.map fun s =>
          if colCeiling col j - (s.smax : Int) < wh
          then { s with area := RC_NULL_AREA } else s := by
  intro col
  induction col with
  | nil => intro j; simp [lowHeightColumnGo]
  | cons c rest ih =>
    intro j
    cases j with
    | zero =>
      cases rest with
      | nil => simp [lowHeightColumnGo, colCeiling, headCeiling]
      | cons t r2 => simp [lowHeightColumnGo, colCeiling, headCeiling]
    | succ j =>
      have := ih j
      simp only [lowHeightColumnGo, List.getElem?_cons_succ, this,
        colCeiling_cons_succ]

theorem lowHeightCols_getElem? (wh : Int) (bound : Nat) :
    ∀ (l : List Column) (k m : Nat),
      (lowHeightCols wh bound k l)[m]? =
        l[m]?.map fun c =>
          if k + m < bound then lowHeightColumnGo wh c else c := by
  intro l
  induction l with
  | nil => intro k m; simp [lowHeightCols]
  | cons c rest ih =>
    intro k m
    cases m with
    | zero => simp [lowHeightCols]
    | succ m =>
      have := ih (k + 1) m
      simp only [lowHeightCols, List.getElem?_cons_succ, this,
        Nat.add_succ, Nat.succ_add]

theorem lowHeight_column (wh : Int) (hf : Heightfield) (i : Nat)
    (hi : i < hf.width * hf.height) :
    (rcFilterWalkableLowHeightSpans wh hf).column i =
      lowHeightColumnGo wh (hf.column i) := by
  rw [column_def, column_def]
  show (lowHeightCols wh (hf.width * hf.height) 0 hf.spans)[i]?.getD [] = _
  rw [lowHeightCols_getElem?]
  cases h : hf.spans[i]? with
  | none => simp [lowHeightColumnGo]
  | some c =>
    simp only [Option.map_some', Option.getD_some]
    rw [if_pos (by omega : 0 + i < hf.width * hf.height)]

/-- C8: `rcFilterWalkableLowHeightSpans` sets a span's area to the
unwalkable sentinel exactly when `ceiling - floor < walkableHeight`, where
the floor is the span's `smax` and the ceiling is the next span's `smin`
(or the sentinel `0xffff` for the topmost span); the rule is applied to
every span regardless of its current walkability, and the output column
depends only on the input column, never on neighbor columns. -/
theorem C8_low_height_iff (walkableHeight : Int) (hf : Heightfield)
    (i j : Nat) (hi : i < hf.width * hf.height) (s : Span)
    (hs : (hf.column i)[j]? = some s) :
    ((rcFilterWalkableLowHeightSpans walkableHeight hf).column i)[j]? =
      some (if colCeiling (hf.column i) j - (s.smax : Int) < walkableHeight
            then { s with area := RC_NULL_AREA } else s) ∧
    (rcFilterWalkableLowHeightSpans walkableHeight hf).spans[i]? =
      hf.spans[i]?.map (lowHeightColumnGo walkableHeight) := by
  constructor
  · rw [lowHeight_column walkableHeight hf i hi,
      lowHeightColumnGo_getElem?, hs, Option.map_some']
  · show (lowHeightCols walkableHeight (hf.width * hf.height) 0
      hf.spans)[i]? = _
    rw [lowHeightCols_getElem?]
    cases h : hf.spans[i]? with
    | none => simp
    | some c =>
      simp only [Option.map_some', Option.some.injEq]
      rw [if_pos (by omega : 0 + i < hf.width * hf.height)]

theorem C8_witness :
    ((rcFilterWalkableLowHeightSpans 2 hfW).column 4)[0]? =
      some (⟨0, 0, 1⟩ : Span) := by
  have h := (C8_low_height_iff 2 hfW 4 0 (by decide) ⟨0, 0, 1⟩ (by decide)).1
  rw [h]; decide

/-! ## rcFilterLedgeSpans: the scans read only span geometry -/

theorem scanNeighborColumn_congr (wh wc floor ceiling : Int) :
    ∀ (col1 col2 : Column), col1.map spanGeom = col2.map spanGeom →
      ∀ acc, scanNeighborColumn wh wc floor ceiling col1 acc =
        scanNeighborColumn wh wc floor ceiling col2 acc := by
  intro col1
  induction col1 with
  | nil =>
    intro col2 h acc
    cases col2 with
    | nil => rfl
    | cons s2 rest2 => simp at h
  | cons s1 rest1 ih =>
    intro col2 h acc
    cases col2 with
    | nil => simp at h
    | cons s2 rest2 =>
      simp only [List.map_cons, List.cons.injEq] at h
      obtain ⟨hhead, htail⟩ := h
      have hsmax : s1.smax = s2.smax := congrArg Prod.snd hhead
      have hceil : headCeiling rest1 = headCeiling rest2 := by
        cases rest1 with
        | nil =>
          cases rest2 with
          | nil => rfl
          | cons a2 b2 => simp at htail
        | cons a1 b1 =>
          cases rest2 with
          | nil => simp at htail
          | cons a2 b2 =>
            simp only [List.map_cons, List.cons.injEq] at htail
            have hmin : a1.smin = a2.smin := congrArg Prod.fst htail.1
            simp [headCeiling, hmin]
      obtain ⟨lnfd, lo, hi⟩ := acc
      simp only [scanNeighborColumn, hsmax, hceil]
      split_ifs <;> first | exact ih rest2 htail _ | rfl

theorem bottomCeiling_congr {hf1 hf2 : Heightfield} (h : geomEq hf1 hf2)
    (ci : Nat) : bottomCeiling hf1 ci = bottomCeiling hf2 ci := by
  have hcol := geomEq_column h ci
  unfold bottomCeiling
  cases h1 : hf1.column ci with
  | nil =>
    cases h2 : hf2.column ci with
    | nil => rfl
    | cons a2 b2 => rw [h1, h2] at hcol; simp at hcol
  | cons a1 b1 =>
    cases h2 : hf2.column ci with
    | nil => rw [h1, h2] at hcol; simp at hcol
    | cons a2 b2 =>
      rw [h1, h2] at hcol
      simp only [List.map_cons, List.cons.injEq] at hcol
      have hmin : a1.smin = a2.smin := congrArg Prod.fst hcol.1
      simp [headCeiling, hmin]

theorem scanDirs_congr (wh wc : Int) {hf1 hf2 : Heightfield}
    (h : geomEq hf1 hf2) (x z : Nat) (floor ceiling : Int) :
    ∀ (dirs : List Nat) (acc : Int × Int × Int),
      scanDirs wh wc hf1 x z floor ceiling dirs acc =
        scanDirs wh wc hf2 x z floor ceiling dirs acc := by
  intro dirs
  induction dirs with
  | nil => intro acc; rfl
  | cons d rest ih =>
    intro acc
    obtain ⟨lnfd, lo, hi⟩ := acc
    simp only [scanDirs, h.1, h.2.1, bottomCeiling_congr h]
    split_ifs with h1 h2
    · rfl
    · rfl
    · rw [scanNeighborColumn_congr wh wc floor ceiling _ _
        (geomEq_column h _), ih]

theorem ledgeSpanNewArea_congr (wh wc : Int) {hf1 hf2 : Heightfield}
    (h : geomEq hf1 hf2) (x z : Nat) (s : Span) (ceiling : Int) :
    ledgeSpanNewArea wh wc hf1 x z s ceiling =
      ledgeSpanNewArea wh wc hf2 x z s ceiling := by
  simp only [ledgeSpanNewArea, scanDirs_congr wh wc h]

/-! ## rcFilterLedgeSpans: snapshot column characterization -/

theorem colCeiling_zero (c : Span) (rest : Column) :
    colCeiling (c :: rest) 0 = headCeiling rest := by
  cases rest <;> simp [colCeiling, headCeiling]

theorem colCeiling_ext {col1 col2 : Column} (j : Nat)
    (h : col1[j + 1]? = col2[j + 1]?) :
    colCeiling col1 j = colCeiling col2 j := by
  unfold colCeiling; rw [h]

theorem ledgeColumnGo_getElem? (wh wc : Int) (hf : Heightfield)
    (x z : Nat) :
    ∀ (col : Column) (j : Nat),
      (ledgeColumnGo wh wc hf x z col)[j]? =
        col[j]?.map fun s =>
          if s.area = RC_NULL_AREA then s
          else { s with area :=
            ledgeSpanNewArea wh wc hf x z s (colCeiling col j) } := by
  intro col
  induction col with
  | nil => intro j; simp [ledgeColumnGo]
  | cons c rest ih =>
    intro j
    cases j with
    | zero =>
      simp only [ledgeColumnGo, List.getElem?_cons_zero, Option.map_some',
        colCeiling_zero]
    | succ j =>
      simp only [ledgeColumnGo, List.getElem?_cons_succ, ih j,
        colCeiling_cons_succ]

theorem ledgeColumnGo_length (wh wc : Int) (hf : Heightfield) (x z : Nat) :
    ∀ (col : Column),
      (ledgeColumnGo wh wc hf x z col).length = col.length := by
  intro col
  induction col with
  | nil => rfl
  | cons c rest ih => simp [ledgeColumnGo, ih]

theorem ledgeColumnGo_geom (wh wc : Int) (hf : Heightfield) (x z : Nat) :
    ∀ (col : Column),
      (ledgeColumnGo wh wc hf x z col).map spanGeom =
        col.map spanGeom := by
  intro col
  induction col with
  | nil => rfl
  | cons c rest ih =>
    simp only [ledgeColumnGo, List.map_cons, ih, List.cons.injEq,
      and_true]
    split_ifs <;> rfl

theorem ledgeSnapshotCols_getElem? (wh wc : Int) (hf : Heightfield)
    (bound : Nat) :
    ∀ (l : List Column) (k m : Nat),
      (ledgeSnapshotCols wh wc hf bound k l)[m]? =
        l[m]?.map fun c =>
          if k + m < bound then
            ledgeColumnGo wh wc hf ((k + m) % hf.width)
              ((k + m) / hf.width) c
          else c := by
  intro l
  induction l with
  | nil => intro k m; simp [ledgeSnapshotCols]
  | cons c rest ih =>
    intro k m
    cases m with
    | zero => simp [ledgeSnapshotCols]
    | succ m =>
      have := ih (k + 1) m
      simp only [ledgeSnapshotCols, List.getElem?_cons_succ, this,
        Nat.add_succ, Nat.succ_add]

/-! ## rcFilterLedgeSpans: the in-place pass equals the snapshot pass -/

theorem ledgeCellGo_spans_length (wh wc : Int) (i : Nat) :
    ∀ (n j : Nat) (hf1 : Heightfield),
      (ledgeCellGo wh wc i n j hf1).spans.length = hf1.spans.length := by
  intro n
  induction n with
  | zero => intro j hf1; rfl
  | succ n ih =>
    intro j hf1
    cases hcol : (hf1.column i)[j]? with
    | none => simp only [ledgeCellGo, hcol]; exact ih (j + 1) hf1
    | some s =>
      by_cases hs0 : s.area = RC_NULL_AREA
      · simp only [ledgeCellGo, hcol, if_pos hs0]; exact ih (j + 1) hf1
      · simp only [ledgeCellGo, hcol, if_neg hs0]
        rw [ih]
        exact listModify_length _ _ _

theorem ledgeCellGo_spec (wh wc : Int) (hf₀ : Heightfield) (i : Nat) :
    ∀ (n j : Nat) (hf1 : Heightfield), geomEq hf1 hf₀ →
      (∀ j2, j ≤ j2 → (hf1.column i)[j2]? = (hf₀.column i)[j2]?) →
      geomEq (ledgeCellGo wh wc i n j hf1) hf₀ ∧
      (∀ k, k ≠ i →
        (ledgeCellGo wh wc i n j hf1).spans[k]? = hf1.spans[k]?) ∧
      (∀ j2,
        ((ledgeCellGo wh wc i n j hf1).column i)[j2]? =
          if j ≤ j2 ∧ j2 < j + n then
            (hf₀.column i)[j2]?.map fun s =>
              if s.area = RC_NULL_AREA then s
              else { s with area := (ledgeSpanNewArea wh wc hf₀
                (i % hf₀.width) (i / hf₀.width) s
                (colCeiling (hf₀.column i) j2)) }
          else (hf1.column i)[j2]?) := by
  intro n
  induction n with
  | zero =>
    intro j hf1 hgeom hsuf
    refine ⟨hgeom, fun k _ => rfl, fun j2 => ?_⟩
    rw [if_neg (by omega)]
    rfl
  | succ n ih =>
    intro j hf1 hgeom hsuf
    cases hcol : (hf1.column i)[j]? with
    | none =>
      have hred : ledgeCellGo wh wc i (n + 1) j hf1 =
          ledgeCellGo wh wc i n (j + 1) hf1 := by
        simp only [ledgeCellGo, hcol]
      have key := ih (j + 1) hf1 hgeom (fun j2 h2 => hsuf j2 (by omega))
      rw [hred]
      refine ⟨key.1, key.2.1, fun j2 => ?_⟩
      rw [key.2.2 j2]
      by_cases h2 : j + 1 ≤ j2 ∧ j2 < j + 1 + n
      · rw [if_pos h2, if_pos (by omega)]
      · rw [if_neg h2]
        by_cases h3 : j ≤ j2 ∧ j2 < j + (n + 1)
        · have hj2 : j2 = j := by omega
          subst hj2
          rw [if_pos h3, hcol, ← hsuf j2 le_rfl, hcol]
          rfl
        · rw [if_neg h3]
    | some s =>
      by_cases hs0 : s.area = RC_NULL_AREA
      · have hred : ledgeCellGo wh wc i (n + 1) j hf1 =
            ledgeCellGo wh wc i n (j + 1) hf1 := by
          simp only [ledgeCellGo, hcol, if_pos hs0]
        have key := ih (j + 1) hf1 hgeom (fun j2 h2 => hsuf j2 (by omega))
        rw [hred]
        refine ⟨key.1, key.2.1, fun j2 => ?_⟩
        rw [key.2.2 j2]
        by_cases h2 : j + 1 ≤ j2 ∧ j2 < j + 1 + n
        · rw [if_pos h2, if_pos (by omega)]
        · rw [if_neg h2]
          by_cases h3 : j ≤ j2 ∧ j2 < j + (n + 1)
          · have hj2 : j2 = j := by omega
            subst hj2
            rw [if_pos h3, hcol, ← hsuf j2 le_rfl, hcol]
            simp [hs0]
          · rw [if_neg h3]
      · have hred : ledgeCellGo wh wc i (n + 1) j hf1 =
            ledgeCellGo wh wc i n (j + 1)
              (modifyArea hf1 i j
                (ledgeSpanNewArea wh wc hf1 (i % hf1.width) (i / hf1.width)
                  s (colCeiling (hf1.column i) j))) := by
          simp only [ledgeCellGo, hcol, if_neg hs0]
        have hdint : ledgeSpanNewArea wh wc hf1 (i % hf1.width)
            (i / hf1.width) s (colCeiling (hf1.column i) j) =
            ledgeSpanNewArea wh wc hf₀ (i % hf₀.width) (i / hf₀.width) s
              (colCeiling (hf₀.column i) j) := by
          rw [hgeom.1, colCeiling_ext j (hsuf (j + 1) (by omega))]
          exact ledgeSpanNewArea_congr wh wc hgeom _ _ s _
        have hgeom2 : geomEq (modifyArea hf1 i j
            (ledgeSpanNewArea wh wc hf1 (i % hf1.width) (i / hf1.width) s
              (colCeiling (hf1.column i) j))) hf₀ :=
          geomEq_trans (geomEq_modifyArea hf1 i j _) hgeom
        have hsuf2 : ∀ j2, j + 1 ≤ j2 →
            ((modifyArea hf1 i j
              (ledgeSpanNewArea wh wc hf1 (i % hf1.width) (i / hf1.width) s
                (colCeiling (hf1.column i) j))).column i)[j2]? =
            (hf₀.column i)[j2]? := by
          intro j2 h2
          rw [column_modifyArea, if_pos rfl, listModify_getElem?,
            if_neg (by omega : j2 ≠ j)]
          exact hsuf j2 (by omega)
        have key := ih (j + 1) _ hgeom2 hsuf2
        rw [hred]
        refine ⟨key.1, ?_, fun j2 => ?_⟩
        · intro k hk
          rw [key.2.1 k hk]
          show (listModify (listModify (setArea _) j) i hf1.spans)[k]? = _
          rw [listModify_getElem?, if_neg hk]
        · rw [key.2.2 j2]
          by_cases h2 : j + 1 ≤ j2 ∧ j2 < j + 1 + n
          · rw [if_pos h2, if_pos (by omega)]
          · rw [if_neg h2]
            by_cases h3 : j ≤ j2 ∧ j2 < j + (n + 1)
            · have hj2 : j2 = j := by omega
              subst hj2
              rw [if_pos h3, column_modifyArea, if_pos rfl,
                listModify_getElem?, if_pos rfl, hcol, ← hsuf j2 le_rfl,
                hcol]
              simp only [Option.map_some']
              rw [if_neg hs0, ← hdint]
              rfl
            · rw [if_neg h3, column_modifyArea, if_pos rfl,
                listModify_getElem?, if_neg (by omega : j2 ≠ j)]

theorem ledgeCellStep_spans_self (wh wc : Int) (hf₀ hf1 : Heightfield)
    (a : Nat) (hgeom : geomEq hf1 hf₀)
    (hcola : hf1.spans[a]? = hf₀.spans[a]?) :
    (ledgeCellStep wh wc hf1 a).spans[a]? =
      hf₀.spans[a]?.map fun col =>
        ledgeColumnGo wh wc hf₀ (a % hf₀.width) (a / hf₀.width) col := by
  have hcoleq : hf1.column a = hf₀.column a := by
    rw [column_def, column_def, hcola]
  have hcell := ledgeCellGo_spec wh wc hf₀ a (hf1.column a).length 0 hf1
    hgeom (fun j2 _ => by rw [hcoleq])
  show (ledgeCellGo wh wc a (hf1.column a).length 0 hf1).spans[a]? = _
  cases h0 : hf₀.spans[a]? with
  | none =>
    have h1 : hf1.spans[a]? = none := by rw [hcola, h0]
    have hlen : hf1.spans.length ≤ a := List.getElem?_eq_none_iff.mp h1
    have hlen2 :
        (ledgeCellGo wh wc a (hf1.column a).length 0 hf1).spans.length ≤
          a := by
      rw [ledgeCellGo_spans_length]; exact hlen
    rw [List.getElem?_eq_none hlen2]
    rfl
  | some col₀ =>
    have h1 : hf1.spans[a]? = some col₀ := by rw [hcola, h0]
    have hcol0 : hf₀.column a = col₀ := by rw [column_def, h0]; rfl
    have hlt : a < hf1.spans.length := (List.getElem?_eq_some.mp h1).1
    have hlt2 :
        a < (ledgeCellGo wh wc a (hf1.column a).length 0 hf1).spans.length
        := by rw [ledgeCellGo_spans_length]; exact hlt
    rw [List.getElem?_eq_getElem hlt2, Option.map_some']
    congr 1
    have hcolres :
        (ledgeCellGo wh wc a (hf1.column a).length 0 hf1).column a =
          (ledgeCellGo wh wc a (hf1.column a).length 0 hf1).spans[a] := by
      rw [column_def, List.getElem?_eq_getElem hlt2]; rfl
    apply List.ext_getElem?
    intro j2
    rw [← hcolres, hcell.2.2 j2, ledgeColumnGo_getElem?]
    rw [hcoleq, hcol0]
    by_cases hj : j2 < col₀.length
    · rw [if_pos ⟨Nat.zero_le _, by omega⟩]
    · rw [if_neg (by omega), List.getElem?_eq_none (le_of_not_lt hj)]
      rfl

theorem ledgeCellsGo_spec (wh wc : Int) (hf₀ : Heightfield) :
    ∀ (b a : Nat) (hf1 : Heightfield), geomEq hf1 hf₀ →
      (∀ k, a ≤ k → hf1.spans[k]? = hf₀.spans[k]?) →
      geomEq (ledgeCellsGo wh wc (List.range' a b) hf1) hf₀ ∧
      (∀ k, (ledgeCellsGo wh wc (List.range' a b) hf1).spans[k]? =
        if a ≤ k ∧ k < a + b then
          hf₀.spans[k]?.map fun col =>
            ledgeColumnGo wh wc hf₀ (k % hf₀.width) (k / hf₀.width) col
        else hf1.spans[k]?) := by
  intro b
  induction b with
  | zero =>
    intro a hf1 hgeom hsuf
    refine ⟨hgeom, fun k => ?_⟩
    rw [if_neg (by omega)]
    rfl
  | succ b ih =>
    intro a hf1 hgeom hsuf
    rw [List.range'_succ]
    have hcoleq : hf1.column a = hf₀.column a := by
      rw [column_def, column_def, hsuf a le_rfl]
    have hcell := ledgeCellGo_spec wh wc hf₀ a (hf1.column a).length 0 hf1
      hgeom (fun j2 _ => by rw [hcoleq])
    have hgeom2 : geomEq (ledgeCellStep wh wc hf1 a) hf₀ := hcell.1
    have hsuf2 : ∀ k, a + 1 ≤ k →
        (ledgeCellStep wh wc hf1 a).spans[k]? = hf₀.spans[k]? := by
      intro k hk
      have := hcell.2.1 k (by omega)
      rw [show (ledgeCellStep wh wc hf1 a).spans[k]? =
        (ledgeCellGo wh wc a (hf1.column a).length 0 hf1).spans[k]? from
        rfl, this]
      exact hsuf k (by omega)
    have key := ih (a + 1) (ledgeCellStep wh wc hf1 a) hgeom2 hsuf2
    show geomEq (ledgeCellsGo wh wc (List.range' (a + 1) b)
        (ledgeCellStep wh wc hf1 a)) hf₀ ∧ _
    refine ⟨key.1, fun k => ?_⟩
    rw [show (ledgeCellsGo wh wc (a :: List.range' (a + 1) b) hf1) =
      ledgeCellsGo wh wc (List.range' (a + 1) b)
        (ledgeCellStep wh wc hf1 a) from rfl]
    rw [key.2 k]
    by_cases h2 : a + 1 ≤ k ∧ k < a + 1 + b
    · rw [if_pos h2, if_pos (by omega)]
    · rw [if_neg h2]
      by_cases h3 : a ≤ k ∧ k < a + (b + 1)
      · have hk : k = a := by omega
        subst hk
        rw [if_pos h3]
        exact ledgeCellStep_spans_self wh wc hf₀ hf1 k hgeom
          (hsuf k le_rfl)
      · rw [if_neg h3]
        exact hcell.2.1 k (by omega)

theorem heightfield_ext {h1 h2 : Heightfield} (hw : h1.width = h2.width)
    (hh : h1.height = h2.height) (hs : h1.spans = h2.spans) : h1 = h2 := by
  cases h1; cases h2
  simp only at hw hh hs
  rw [hw, hh, hs]

theorem ledge_seq_eq_snapshot (wh wc : Int) (hf : Heightfield) :
    rcFilterLedgeSpans wh wc hf = rcFilterLedgeSpansSnapshot wh wc hf := by
  have hseq : rcFilterLedgeSpans wh wc hf =
      ledgeCellsGo wh wc (List.range' 0 (hf.width * hf.height)) hf := by
    unfold rcFilterLedgeSpans
    rw [List.range_eq_range']
  obtain ⟨hgeom, hspans⟩ := ledgeCellsGo_spec wh wc hf
    (hf.width * hf.height) 0 hf (geomEq_refl hf) (fun k _ => rfl)
  rw [hseq]
  apply heightfield_ext
  · exact hgeom.1
  · exact hgeom.2.1
  · apply List.ext_getElem?
    intro k
    rw [hspans k]
    show _ = (ledgeSnapshotCols wh wc hf (hf.width * hf.height) 0
      hf.spans)[k]?
    rw [ledgeSnapshotCols_getElem?]
    simp only [Nat.zero_add]
    cases h0 : hf.spans[k]? with
    | none => split_ifs <;> rfl
    | some c =>
      by_cases hk : k < hf.width * hf.height
      · rw [if_pos ⟨Nat.zero_le _, hk⟩, Option.map_some', Option.map_some',
          if_pos hk]
      · rw [if_neg (by omega), Option.map_some', if_neg hk]

theorem ledge_result_getElem? (wh wc : Int) (hf : Heightfield) (i : Nat)
    (hi : i < hf.width * hf.height) (j : Nat) :
    ((rcFilterLedgeSpans wh wc hf).column i)[j]? =
      (hf.column i)[j]?.map fun s =>
        if s.area = RC_NULL_AREA then s
        else { s with area := (ledgeSpanNewArea wh wc hf (i % hf.width)
          (i / hf.width) s (colCeiling (hf.column i) j)) } := by
  rw [ledge_seq_eq_snapshot, column_def]
  show ((ledgeSnapshotCols wh wc hf (hf.width * hf.height) 0
    hf.spans)[i]?.getD [])[j]? = _
  rw [ledgeSnapshotCols_getElem?]
  simp only [Nat.zero_add]
  cases h0 : hf.spans[i]? with
  | none =>
    have hnil : hf.column i = [] := by rw [column_def, h0]; rfl
    simp [hnil]
  | some c =>
    have hc : hf.column i = c := by rw [column_def, h0]; rfl
    rw [Option.map_some', Option.getD_some, if_pos hi,
      ledgeColumnGo_getElem?, hc]

theorem ledge_result_areaAt (wh wc : Int) (hf : Heightfield) (i j : Nat)
    (hi : i < hf.width * hf.height) (s : Span)
    (hs : (hf.column i)[j]? = some s) (hwalk : s.area ≠ RC_NULL_AREA) :
    areaAt (rcFilterLedgeSpans wh wc hf) (i, j) =
      ledgeSpanNewArea wh wc hf (i % hf.width) (i / hf.width) s
        (colCeiling (hf.column i) j) := by
  show (((rcFilterLedgeSpans wh wc hf).column i)[j]?.getD default).area = _
  rw [ledge_result_getElem? wh wc hf i hi j, hs, Option.map_some',
    Option.getD_some, if_neg hwalk]

/-- C10: the classification `rcFilterLedgeSpans` assigns never depends on
area ids mutated earlier in the same pass: the 4-direction neighbor scan
reads only span geometry (`smin`/`smax`), so it is invariant under any
change of area ids, and the whole in-place pass produces exactly the same
heightfield as the two-phase variant that decides every demotion against an
immutable snapshot of the input and then applies them all. -/
theorem C10_ledge_snapshot_equivalence :
    (∀ (walkableHeight walkableClimb : Int) (hf1 hf2 : Heightfield),
      geomEq hf1 hf2 → ∀ (x z : Nat) (floor ceiling : Int)
        (dirs : List Nat) (acc : Int × Int × Int),
        scanDirs walkableHeight walkableClimb hf1 x z floor ceiling dirs
            acc =
          scanDirs walkableHeight walkableClimb hf2 x z floor ceiling dirs
            acc) ∧
    (∀ (walkableHeight walkableClimb : Int) (hf : Heightfield),
      rcFilterLedgeSpans walkableHeight walkableClimb hf =
        rcFilterLedgeSpansSnapshot walkableHeight walkableClimb hf) :=
  ⟨fun wh wc _ _ h x z floor ceiling dirs acc =>
    scanDirs_congr wh wc h x z floor ceiling dirs acc,
   fun wh wc hf => ledge_seq_eq_snapshot wh wc hf⟩

theorem C10_witness :
    scanDirs 2 1 (modifyArea hfW 4 0 7) 1 1 0 MAX_HEIGHTFIELD_HEIGHT
        [0, 1, 2, 3] (65535, 0, 0) =
      scanDirs 2 1 hfW 1 1 0 MAX_HEIGHTFIELD_HEIGHT [0, 1, 2, 3]
        (65535, 0, 0) ∧
    rcFilterLedgeSpans 2 1 hfW = rcFilterLedgeSpansSnapshot 2 1 hfW :=
  ⟨C10_ledge_snapshot_equivalence.1 2 1 (modifyArea hfW 4 0 7) hfW
      (by simp only [geomEq]; decide) 1 1 0 MAX_HEIGHTFIELD_HEIGHT
      [0, 1, 2, 3] (65535, 0, 0),
   C10_ledge_snapshot_equivalence.2 2 1 hfW⟩

/-! ## rcFilterLedgeSpans: boundary and early exits -/

theorem scanDirs_oob (wh wc : Int) (hf : Heightfield) (x z : Nat)
    (floor ceiling : Int) :
    ∀ (dirs : List Nat) (acc : Int × Int × Int),
      (∃ d ∈ dirs,
        (x : Int) + rcGetDirOffsetX d < 0 ∨
          (z : Int) + rcGetDirOffsetY d < 0 ∨
          (hf.width : Int) ≤ (x : Int) + rcGetDirOffsetX d ∨
          (hf.height : Int) ≤ (z : Int) + rcGetDirOffsetY d) →
      (scanDirs wh wc hf x z floor ceiling dirs acc).1 = -wc - 1 := by
  intro dirs
  induction dirs with
  | nil => intro acc h; simp at h
  | cons d rest ih =>
    intro acc h
    obtain ⟨lnfd, lo, hi⟩ := acc
    by_cases hoob : (x : Int) + rcGetDirOffsetX d < 0 ∨
        (z : Int) + rcGetDirOffsetY d < 0 ∨
        (hf.width : Int) ≤ (x : Int) + rcGetDirOffsetX d ∨
        (hf.height : Int) ≤ (z : Int) + rcGetDirOffsetY d
    · simp only [scanDirs]
      rw [if_pos hoob]
    · have hrest : ∃ d2 ∈ rest,
          (x : Int) + rcGetDirOffsetX d2 < 0 ∨
            (z : Int) + rcGetDirOffsetY d2 < 0 ∨
            (hf.width : Int) ≤ (x : Int) + rcGetDirOffsetX d2 ∨
            (hf.height : Int) ≤ (z : Int) + rcGetDirOffsetY d2 := by
        obtain ⟨d2, hd2, hP⟩ := h
        rcases List.mem_cons.mp hd2 with hdd | hmem
        · exact absurd (hdd ▸ hP) hoob
        · exact ⟨d2, hmem, hP⟩
      simp only [scanDirs]
      rw [if_neg hoob]
      split_ifs with hgap
      · rfl
      · exact ih _ hrest

/-- C5: every walkable span in a column adjacent to the grid edge is
reclassified to the unwalkable sentinel by `rcFilterLedgeSpans`, regardless
of neighbor geometry: the out-of-bounds direction overwrites the lowest
neighbor floor difference with `-walkableClimb - 1` and stops the direction
scan, and `-walkableClimb - 1 < -walkableClimb` always triggers the
steep-drop demotion. -/
theorem C5_ledge_boundary (walkableHeight walkableClimb : Int)
    (hf : Heightfield) (i j : Nat) (hi : i < hf.width * hf.height)
    (hb : i % hf.width = 0 ∨ i % hf.width = hf.width - 1 ∨
      i / hf.width = 0 ∨ i / hf.width = hf.height - 1)
    (s : Span) (hs : (hf.column i)[j]? = some s)
    (hwalk : s.area ≠ RC_NULL_AREA) :
    (ledgeScanResult walkableHeight walkableClimb hf i j s).1 =
      -walkableClimb - 1 ∧
    areaAt (rcFilterLedgeSpans walkableHeight walkableClimb hf) (i, j) =
      RC_NULL_AREA := by
  have hw : 0 < hf.width :=
    Nat.pos_of_ne_zero fun h0 => by simp [h0] at hi
  have hh : 0 < hf.height :=
    Nat.pos_of_ne_zero fun h0 => by simp [h0] at hi
  have hx : i % hf.width < hf.width := Nat.mod_lt _ hw
  have hz : i / hf.width < hf.height := by
    rw [Nat.div_lt_iff_lt_mul hw]
    rwa [Nat.mul_comm] at hi
  have hoob : ∃ d ∈ [0, 1, 2, 3],
      ((i % hf.width : Nat) : Int) + rcGetDirOffsetX d < 0 ∨
        ((i / hf.width : Nat) : Int) + rcGetDirOffsetY d < 0 ∨
        (hf.width : Int) ≤ ((i % hf.width : Nat) : Int) +
          rcGetDirOffsetX d ∨
        (hf.height : Int) ≤ ((i / hf.width : Nat) : Int) +
          rcGetDirOffsetY d := by
    rcases hb with h | h | h | h
    · refine ⟨0, by simp, Or.inl ?_⟩
      simp only [rcGetDirOffsetX]
      rw [h]; decide
    · refine ⟨2, by simp, Or.inr (Or.inr (Or.inl ?_))⟩
      have hoff : rcGetDirOffsetX 2 = 1 := by decide
      rw [hoff, h]
      have h1w : (1 : Nat) ≤ hf.width := hw
      push_cast [Nat.cast_sub h1w]
      omega
    · refine ⟨3, by simp, Or.inr (Or.inl ?_)⟩
      simp only [rcGetDirOffsetY]
      rw [h]; decide
    · refine ⟨1, by simp, Or.inr (Or.inr (Or.inr ?_))⟩
      have hoff : rcGetDirOffsetY 1 = 1 := by decide
      rw [hoff, h]
      have h1h : (1 : Nat) ≤ hf.height := hh
      push_cast [Nat.cast_sub h1h]
      omega
  have h1 : (ledgeScanResult walkableHeight walkableClimb hf i j s).1 =
      -walkableClimb - 1 := by
    simp only [ledgeScanResult]
    exact scanDirs_oob walkableHeight walkableClimb hf (i % hf.width)
      (i / hf.width) _ _ [0, 1, 2, 3] _ hoob
  refine ⟨h1, ?_⟩
  rw [ledge_result_areaAt walkableHeight walkableClimb hf i j hi s hs hwalk]
  have hlt : (scanDirs walkableHeight walkableClimb hf (i % hf.width)
      (i / hf.width) (s.smax : Int) (colCeiling (hf.column i) j)
      [0, 1, 2, 3] (MAX_HEIGHTFIELD_HEIGHT, (s.smax : Int),
        (s.smax : Int))).1 < -walkableClimb := by
    have h2 : (scanDirs walkableHeight walkableClimb hf (i % hf.width)
        (i / hf.width) (s.smax : Int) (colCeiling (hf.column i) j)
        [0, 1, 2, 3] (MAX_HEIGHTFIELD_HEIGHT, (s.smax : Int),
          (s.smax : Int))).1 = -walkableClimb - 1 := h1
    omega
  simp only [ledgeSpanNewArea]
  rw [if_pos hlt]

theorem C5_witness :
    areaAt (rcFilterLedgeSpans 2 1 hfW) (0, 0) = RC_NULL_AREA :=
  (C5_ledge_boundary 2 1 hfW 0 0 (by decide) (Or.inl (by decide))
    ⟨0, 0, 1⟩ (by decide) (by decide)).2

/-- C1: for non-negative `walkableHeight` and `walkableClimb`,
`rcFilterLedgeSpans` demotes a currently-walkable span to the unwalkable
sentinel exactly when the 4-direction scan leaves a lowest neighbor floor
difference strictly below `-walkableClimb`, or a spread of traversable
neighbor floors (both initialized to the span's own `smax`) strictly above
`walkableClimb`; either condition alone suffices, and a span whose scan
left the traversable bounds at its own floor passes unless the first
condition fired. -/
theorem C1_ledge_demotion_iff (walkableHeight walkableClimb : Int)
    (hwh : 0 ≤ walkableHeight) (hwc : 0 ≤ walkableClimb)
    (hf : Heightfield) (i j : Nat) (hi : i < hf.width * hf.height)
    (s : Span) (hs : (hf.column i)[j]? = some s)
    (hwalk : s.area ≠ RC_NULL_AREA) :
    (areaAt (rcFilterLedgeSpans walkableHeight walkableClimb hf) (i, j) =
        RC_NULL_AREA ↔
      ((ledgeScanResult walkableHeight walkableClimb hf i j s).1 <
          -walkableClimb ∨
        walkableClimb <
          (ledgeScanResult walkableHeight walkableClimb hf i j s).2.2 -
            (ledgeScanResult walkableHeight walkableClimb hf i j s).2.1)) ∧
    ((ledgeScanResult walkableHeight walkableClimb hf i j s).2.1 =
        (ledgeScanResult walkableHeight walkableClimb hf i j s).2.2 →
      (areaAt (rcFilterLedgeSpans walkableHeight walkableClimb hf) (i, j) =
          RC_NULL_AREA ↔
        (ledgeScanResult walkableHeight walkableClimb hf i j s).1 <
          -walkableClimb)) := by
  rw [ledge_result_areaAt walkableHeight walkableClimb hf i j hi s hs hwalk]
  simp only [ledgeSpanNewArea, ledgeScanResult]
  generalize (scanDirs walkableHeight walkableClimb hf (i % hf.width)
    (i / hf.width) (s.smax : Int) (colCeiling (hf.column i) j) [0, 1, 2, 3]
    (MAX_HEIGHTFIELD_HEIGHT, (s.smax : Int), (s.smax : Int))) = r
  constructor
  · by_cases h1 : r.1 < -walkableClimb
    · rw [if_pos h1]
      simp [h1]
    · rw [if_neg h1]
      by_cases h2 : walkableClimb < r.2.2 - r.2.1
      · rw [if_pos h2]
        simp [h1, h2]
      · rw [if_neg h2]
        simp [h1, h2, hwalk]
  · intro heq
    have h2 : ¬ walkableClimb < r.2.2 - r.2.1 := by omega
    by_cases h1 : r.1 < -walkableClimb
    · rw [if_pos h1]
      simp [h1]
    · rw [if_neg h1, if_neg h2]
      simp [h1, hwalk]

theorem C1_witness :
    areaAt (rcFilterLedgeSpans 2 1 hfW) (4, 0) ≠ RC_NULL_AREA := by
  intro hEq
  have h := (C1_ledge_demotion_iff 2 1 (by decide) (by decide) hfW 4 0
    (by decide) ⟨0, 0, 1⟩ (by decide) (by decide)).1
  have h2 := h.mp hEq
  revert h2
  decide

/-- C6: for an in-bounds neighbor direction, when the best-case overlap
between the current span and the neighbor's sub-floor region already
satisfies `walkableHeight` — that is, `min(current ceiling, the neighbor's
bottom-most span's ceiling) − current floor ≥ walkableHeight` — the lowest
neighbor floor difference is overwritten with `-walkableClimb − 1` and the
scan of the remaining directions stops; a scan ending at this sentinel
leads to the same demotion as the grid-boundary case. -/
theorem C6_ledge_overlap_early_exit (walkableHeight walkableClimb : Int) :
    (∀ (hf : Heightfield) (x z : Nat) (floor ceiling : Int) (d : Nat)
      (rest : List Nat) (lnfd lo hi : Int),
      ¬((x : Int) + rcGetDirOffsetX d < 0 ∨
        (z : Int) + rcGetDirOffsetY d < 0 ∨
        (hf.width : Int) ≤ (x : Int) + rcGetDirOffsetX d ∨
        (hf.height : Int) ≤ (z : Int) + rcGetDirOffsetY d) →
      walkableHeight ≤ min ceiling (bottomCeiling hf
        (((x : Int) + rcGetDirOffsetX d).toNat +
          ((z : Int) + rcGetDirOffsetY d).toNat * hf.width)) - floor →
      scanDirs walkableHeight walkableClimb hf x z floor ceiling (d :: rest)
        (lnfd, lo, hi) = (-walkableClimb - 1, lo, hi)) ∧
    (∀ (hf : Heightfield) (i j : Nat), i < hf.width * hf.height →
      ∀ (s : Span), (hf.column i)[j]? = some s → s.area ≠ RC_NULL_AREA →
      (ledgeScanResult walkableHeight walkableClimb hf i j s).1 =
        -walkableClimb - 1 →
      areaAt (rcFilterLedgeSpans walkableHeight walkableClimb hf) (i, j) =
        RC_NULL_AREA) := by
  constructor
  · intro hf x z floor ceiling d rest lnfd lo hi h1 h2
    simp only [scanDirs]
    rw [if_neg h1, if_pos h2]
  · intro hf i j hi s hs hwalk hscan
    rw [ledge_result_areaAt walkableHeight walkableClimb hf i j hi s hs
      hwalk]
    have hlt : (scanDirs walkableHeight walkableClimb hf (i % hf.width)
        (i / hf.width) (s.smax : Int) (colCeiling (hf.column i) j)
        [0, 1, 2, 3] (MAX_HEIGHTFIELD_HEIGHT, (s.smax : Int),
          (s.smax : Int))).1 < -walkableClimb := by
      have h2 : (scanDirs walkableHeight walkableClimb hf (i % hf.width)
          (i / hf.width) (s.smax : Int) (colCeiling (hf.column i) j)
          [0, 1, 2, 3] (MAX_HEIGHTFIELD_HEIGHT, (s.smax : Int),
            (s.smax : Int))).1 = -walkableClimb - 1 := hscan
      omega
    simp only [ledgeSpanNewArea]
    rw [if_pos hlt]

theorem C6_witness :
    scanDirs 2 1 hfW6 0 0 0 MAX_HEIGHTFIELD_HEIGHT [2] (65535, 0, 0) =
      (-1 - 1, 0, 0) ∧
    areaAt (rcFilterLedgeSpans 2 1 hfW6) (0, 0) = RC_NULL_AREA :=
  ⟨(C6_ledge_overlap_early_exit 2 1).1 hfW6 0 0 0 MAX_HEIGHTFIELD_HEIGHT 2
      [] 65535 0 0 (by decide) (by decide),
   (C6_ledge_overlap_early_exit 2 1).2 hfW6 0 0 (by decide) ⟨0, 0, 1⟩
      (by decide) (by decide) (by decide)⟩

/-! ## Idempotence of the demotion passes -/

theorem lowHeight_headCeiling (wh : Int) (rest : Column) :
    headCeiling (lowHeightColumnGo wh rest) = headCeiling rest := by
  cases rest with
  | nil => rfl
  | cons t r =>
    simp only [lowHeightColumnGo, headCeiling]
    split_ifs <;> rfl

theorem lowHeightColumnGo_idem (wh : Int) :
    ∀ (col : Column),
      lowHeightColumnGo wh (lowHeightColumnGo wh col) =
        lowHeightColumnGo wh col := by
  intro col
  induction col with
  | nil => rfl
  | cons c rest ih =>
    simp only [lowHeightColumnGo]
    rw [lowHeight_headCeiling]
    split_ifs with h
    · rw [ih]
    · rw [ih]

theorem lowHeightCols_idem (wh : Int) (bound : Nat) :
    ∀ (l : List Column) (k : Nat),
      lowHeightCols wh bound k (lowHeightCols wh bound k l) =
        lowHeightCols wh bound k l := by
  intro l
  induction l with
  | nil => intro k; rfl
  | cons c rest ih =>
    intro k
    simp only [lowHeightCols]
    rw [ih (k + 1)]
    split_ifs with hk
    · rw [lowHeightColumnGo_idem]
    · rfl

theorem ledge_headCeiling (wh wc : Int) (hf : Heightfield) (x z : Nat)
    (rest : Column) :
    headCeiling (ledgeColumnGo wh wc hf x z rest) = headCeiling rest := by
  cases rest with
  | nil => rfl
  | cons t r =>
    simp only [ledgeColumnGo, headCeiling]
    split_ifs <;> rfl

theorem ledge_dec_idem (wh wc : Int) (hf : Heightfield) (x z : Nat)
    (C : Int) (s : Span) (h0 : s.area ≠ RC_NULL_AREA) :
    (if (ledgeSpanNewArea wh wc hf x z s C) = RC_NULL_AREA then
      ({ s with area := (ledgeSpanNewArea wh wc hf x z s C) } : Span)
     else { ({ s with area := (ledgeSpanNewArea wh wc hf x z s C) } : Span)
       with area := (ledgeSpanNewArea wh wc hf x z
         ({ s with area := (ledgeSpanNewArea wh wc hf x z s C) } : Span)
         C) }) =
      { s with area := (ledgeSpanNewArea wh wc hf x z s C) } := by
  simp only [ledgeSpanNewArea]
  by_cases h1 : (scanDirs wh wc hf x z (s.smax : Int) C [0, 1, 2, 3]
      (MAX_HEIGHTFIELD_HEIGHT, (s.smax : Int), (s.smax : Int))).1 < -wc
  · rw [if_pos h1]
    simp
  · rw [if_neg h1]
    by_cases h2 : wc < (scanDirs wh wc hf x z (s.smax : Int) C [0, 1, 2, 3]
        (MAX_HEIGHTFIELD_HEIGHT, (s.smax : Int),
          (s.smax : Int))).2.2 - (scanDirs wh wc hf x z (s.smax : Int) C
        [0, 1, 2, 3] (MAX_HEIGHTFIELD_HEIGHT, (s.smax : Int),
          (s.smax : Int))).2.1
    · rw [if_pos h2]
      simp
    · rw [if_neg h2, if_neg h0, if_neg h1, if_neg h2]

theorem ledgeColumnGo_idem (wh wc : Int) (hf : Heightfield) (x z : Nat) :
    ∀ (col : Column),
      ledgeColumnGo wh wc hf x z (ledgeColumnGo wh wc hf x z col) =
        ledgeColumnGo wh wc hf x z col := by
  intro col
  induction col with
  | nil => rfl
  | cons c rest ih =>
    simp only [ledgeColumnGo]
    rw [ledge_headCeiling, ih]
    by_cases h0 : c.area = RC_NULL_AREA
    · simp [h0]
    · rw [if_neg h0]
      have := ledge_dec_idem wh wc hf x z (headCeiling rest) c h0
      simp only [ledgeSpanNewArea] at this ⊢
      exact congrArg (fun t => t :: ledgeColumnGo wh wc hf x z rest) this

theorem ledgeColumnGo_congr (wh wc : Int) {hf1 hf2 : Heightfield}
    (h : geomEq hf1 hf2) (x z : Nat) :
    ∀ (col : Column),
      ledgeColumnGo wh wc hf1 x z col = ledgeColumnGo wh wc hf2 x z col := by
  intro col
  induction col with
  | nil => rfl
  | cons c rest ih =>
    simp only [ledgeColumnGo, ih, List.cons.injEq, and_true]
    split_ifs with h0
    · rfl
    · rw [ledgeSpanNewArea_congr wh wc h]

theorem ledgeSnapshotCols_geom (wh wc : Int) (hf : Heightfield)
    (bound : Nat) :
    ∀ (l : List Column) (k : Nat),
      (ledgeSnapshotCols wh wc hf bound k l).map (List.map spanGeom) =
        l.map (List.map spanGeom) := by
  intro l
  induction l with
  | nil => intro k; rfl
  | cons c rest ih =>
    intro k
    simp only [ledgeSnapshotCols, List.map_cons, ih (k + 1),
      List.cons.injEq, and_true]
    split_ifs with hk
    · exact ledgeColumnGo_geom wh wc hf _ _ c
    · rfl

theorem geomEq_ledgeSnapshot (wh wc : Int) (hf : Heightfield) :
    geomEq (rcFilterLedgeSpansSnapshot wh wc hf) hf :=
  ⟨rfl, rfl, ledgeSnapshotCols_geom wh wc hf (hf.width * hf.height)
    hf.spans 0⟩

theorem ledgeSnapshot_idem (wh wc : Int) (hf : Heightfield) :
    rcFilterLedgeSpansSnapshot wh wc (rcFilterLedgeSpansSnapshot wh wc hf)
      = rcFilterLedgeSpansSnapshot wh wc hf := by
  apply heightfield_ext
  · rfl
  · rfl
  · show ledgeSnapshotCols wh wc (rcFilterLedgeSpansSnapshot wh wc hf)
      (hf.width * hf.height) 0
      (ledgeSnapshotCols wh wc hf (hf.width * hf.height) 0 hf.spans) =
      ledgeSnapshotCols wh wc hf (hf.width * hf.height) 0 hf.spans
    apply List.ext_getElem?
    intro k
    rw [ledgeSnapshotCols_getElem?, ledgeSnapshotCols_getElem?]
    simp only [Nat.zero_add]
    cases h0 : hf.spans[k]? with
    | none => rfl
    | some c =>
      simp only [Option.map_some']
      by_cases hk : k < hf.width * hf.height
      · rw [if_pos hk]
        rw [show (rcFilterLedgeSpansSnapshot wh wc hf).width = hf.width
          from rfl]
        rw [ledgeColumnGo_congr wh wc (geomEq_ledgeSnapshot wh wc hf)]
        rw [if_pos hk]
        rw [ledgeColumnGo_idem]
      · rw [if_neg hk]

/-- C9: running `rcFilterWalkableLowHeightSpans` twice yields the same
heightfield as running it once, and likewise for `rcFilterLedgeSpans`:
both passes only demote spans to the unwalkable sentinel, and the ledge
decisions read only span geometry, which demotion does not change. -/
theorem C9_idempotence (walkableHeight walkableClimb : Int)
    (hf : Heightfield) :
    rcFilterWalkableLowHeightSpans walkableHeight
        (rcFilterWalkableLowHeightSpans walkableHeight hf) =
      rcFilterWalkableLowHeightSpans walkableHeight hf ∧
    rcFilterLedgeSpans walkableHeight walkableClimb
        (rcFilterLedgeSpans walkableHeight walkableClimb hf) =
      rcFilterLedgeSpans walkableHeight walkableClimb hf := by
  constructor
  · apply heightfield_ext
    · rfl
    · rfl
    · exact lowHeightCols_idem walkableHeight (hf.width * hf.height)
        hf.spans 0
  · rw [ledge_seq_eq_snapshot walkableHeight walkableClimb hf,
      ledge_seq_eq_snapshot walkableHeight walkableClimb
        (rcFilterLedgeSpansSnapshot walkableHeight walkableClimb hf),
      ledgeSnapshot_idem]

/-! ## rcFilterRuggedAreaSpans: the 10-cell line scenario -/

/-- C4, counterexample: on the 10-cell line with floors rising by 2,
`walkableClimb = 3` and slope threshold `3/2`, the chain built from the
first origin span holds all ten spans (the origin plus the nine neighbors
appended during the nine sample steps), and `_EvaluateRuggedArea` relabels
every span of a qualifying chain — so the span at `x = 9`, which lies
outside "the first 9 spans", is reclassified to the rugged id as well,
refuting the claim as stated. -/
theorem C4_counterexample :
    areaAt (rcFilterRuggedAreaSpans 0 3 (mkRat 3 2) 10 hfLine10) (9, 0) =
      10 ∧
    areaAt hfLine10 (9, 0) = RC_WALKABLE_AREA ∧ (10 : Nat) ≠ 63 := by
  decide

/-- C4, amended: on the 10-cell line all ten spans (the origin plus the
nine appended neighbors of the 9-step window) are reclassified to the
rugged area id, since the average step is 2 ≥ 1.5; and on the isolated
single step of height 1 with the same threshold the heightfield is left
completely unchanged, since the average step is 1 < 1.5. -/
theorem C4_rugged_line :
    rcFilterRuggedAreaSpans 0 3 (mkRat 3 2) 10 hfLine10 = hfLine10Marked ∧
    rcFilterRuggedAreaSpans 0 3 (mkRat 3 2) 10 hfStep2 = hfStep2 := by
  decide

/-! ## _EvaluateRuggedArea: chain relabeling characterization -/

theorem spanAt_areaAt {hf : Heightfield} {p : Handle} {s : Span}
    (h : spanAt hf p = some s) : areaAt hf p = s.area := by
  simp only [spanAt] at h
  simp only [areaAt, h, Option.getD_some]

theorem geomEq_relabelChain (rid : Nat) :
    ∀ (c : Chain) (hf : Heightfield),
      geomEq (relabelChain rid hf c) hf := by
  intro c
  induction c with
  | nil => intro hf; exact geomEq_refl hf
  | cons p rest ih =>
    intro hf
    exact geomEq_trans (ih _) (geomEq_modifyArea hf p.1 p.2 rid)

theorem spanAt_modifyArea_isSome (hf : Heightfield) (i j a : Nat)
    (p : Handle) :
    (spanAt (modifyArea hf i j a) p).isSome = (spanAt hf p).isSome := by
  obtain ⟨k, m⟩ := p
  simp only [spanAt, column_modifyArea]
  by_cases hk : k = i
  · subst hk
    rw [if_pos rfl, listModify_getElem?]
    by_cases hm : m = j
    · subst hm
      rw [if_pos rfl]
      cases (hf.column k)[m]? <;> rfl
    · rw [if_neg hm]
  · rw [if_neg hk]

theorem areaAt_relabel_not_mem (rid : Nat) :
    ∀ (c : Chain) (hf : Heightfield) (q : Handle), q ∉ c →
      areaAt (relabelChain rid hf c) q = areaAt hf q := by
  intro c
  induction c with
  | nil => intro hf q _; rfl
  | cons p rest ih =>
    intro hf q hq
    have hq1 : q ≠ p := fun h => hq (h ▸ List.mem_cons_self p rest)
    have hq2 : q ∉ rest := fun h => hq (List.mem_cons_of_mem p h)
    show areaAt (relabelChain rid (modifyArea hf p.1 p.2 rid) rest) q = _
    rw [ih _ q hq2]
    exact areaAt_modifyArea_ne hf p.1 p.2 rid q
      (by rw [Prod.mk.eta]; exact hq1)

theorem areaAt_relabel_mem (rid : Nat) :
    ∀ (c : Chain) (hf : Heightfield) (q : Handle), q ∈ c →
      (∀ p ∈ c, (spanAt hf p).isSome) →
      areaAt (relabelChain rid hf c) q = rid := by
  intro c
  induction c with
  | nil => intro hf q hq _; simp at hq
  | cons p rest ih =>
    intro hf q hq hv
    by_cases hq2 : q ∈ rest
    · exact ih _ q hq2 fun r hr => by
        rw [spanAt_modifyArea_isSome]
        exact hv r (List.mem_cons_of_mem p hr)
    · have hqp : q = p := by
        rcases List.mem_cons.mp hq with h | h
        · exact h
        · exact absurd h hq2
      subst hqp
      show areaAt (relabelChain rid (modifyArea hf q.1 q.2 rid) rest) q = _
      rw [areaAt_relabel_not_mem rid rest _ q hq2]
      have hsome : ((hf.column q.1)[q.2]?).isSome :=
        hv q (List.mem_cons_self q rest)
      have := areaAt_modifyArea_self hf q.1 q.2 rid hsome
      rwa [Prod.mk.eta] at this

theorem chainTotalDiff_congr {hf1 hf2 : Heightfield} (h : geomEq hf1 hf2)
    (c : Chain) : chainTotalDiff hf1 c = chainTotalDiff hf2 c := by
  unfold chainTotalDiff
  have key : ∀ (l : List (Handle × Handle)) (acc : Int),
      l.foldl (fun acc2 pq => acc2 + |floorAt hf1 pq.1 - floorAt hf1 pq.2|)
        acc =
      l.foldl (fun acc2 pq => acc2 + |floorAt hf2 pq.1 - floorAt hf2 pq.2|)
        acc := by
    intro l
    induction l with
    | nil => intro acc; rfl
    | cons pq rest ih =>
      intro acc
      simp only [List.foldl_cons]
      rw [geomEq_floorAt h, geomEq_floorAt h]
      exact ih _
  exact key _ 0

theorem chainMarkedB_relabel (SlopeThreshold : ℚ) (rid : Nat)
    (hf : Heightfield) (c c' : Chain)
    (hfresh : ∀ p, c'.head? = some p → p ∉ c) :
    chainMarkedB SlopeThreshold (relabelChain rid hf c) c' =
      chainMarkedB SlopeThreshold hf c' := by
  cases c' with
  | nil => rfl
  | cons p' tail =>
    have hp' : p' ∉ c := hfresh p' rfl
    simp only [chainMarkedB]
    rw [areaAt_relabel_not_mem rid c hf p' hp',
      chainTotalDiff_congr (geomEq_relabelChain rid c hf) (p' :: tail)]

theorem any_congr_of_mem {α : Type} {f g : α → Bool} :
    ∀ (l : List α), (∀ a ∈ l, f a = g a) → l.any f = l.any g := by
  intro l
  induction l with
  | nil => intro _; rfl
  | cons a rest ih =>
    intro h
    simp only [List.any_cons]
    rw [h a (List.mem_cons_self a rest), ih fun b hb =>
      h b (List.mem_cons_of_mem a hb)]

theorem spanAt_relabel_isSome (rid : Nat) :
    ∀ (c : Chain) (hf : Heightfield) (p : Handle),
      (spanAt (relabelChain rid hf c) p).isSome = (spanAt hf p).isSome := by
  intro c
  induction c with
  | nil => intro hf p; rfl
  | cons r rest ih =>
    intro hf p
    show (spanAt (relabelChain rid (modifyArea hf r.1 r.2 rid) rest)
      p).isSome = _
    rw [ih, spanAt_modifyArea_isSome]

theorem chainsValidB_relabel (rid : Nat) (hf : Heightfield) (c : Chain)
    (L : List Chain) (h : chainsValidB hf L = true) :
    chainsValidB (relabelChain rid hf c) L = true := by
  simp only [chainsValidB, List.all_eq_true] at h ⊢
  intro c' hc' p hp
  rw [spanAt_relabel_isSome]
  exact h c' hc' p hp

theorem evaluateRugged_areaAt (SlopeThreshold : ℚ) (RuggedAreaID : Nat) :
    ∀ (L : List Chain) (hf : Heightfield), headsFreshB L = true →
      chainsValidB hf L = true → ∀ (q : Handle),
      areaAt (_EvaluateRuggedArea SlopeThreshold RuggedAreaID hf L) q =
        if (L.any fun c =>
            chainMarkedB SlopeThreshold hf c && decide (q ∈ c)) = true
        then RuggedAreaID else areaAt hf q := by
  intro L
  induction L with
  | nil => intro hf _ _ q; simp [_EvaluateRuggedArea]
  | cons c rest ih =>
    intro hf hfresh hvalid q
    rcases c with _ | ⟨p, ctail⟩
    · have hrest : headsFreshB rest = true := by
        simp only [headsFreshB, Bool.and_eq_true] at hfresh
        exact hfresh.2
      have hvrest : chainsValidB hf rest = true := by
        simp only [chainsValidB, List.all_cons, Bool.and_eq_true] at hvalid
        exact hvalid.2
      have hred : _EvaluateRuggedArea SlopeThreshold RuggedAreaID hf
          ([] :: rest) =
          _EvaluateRuggedArea SlopeThreshold RuggedAreaID hf rest := by
        simp [_EvaluateRuggedArea]
      rw [hred, ih hf hrest hvrest q]
      simp [chainMarkedB]
    · simp only [headsFreshB, Bool.and_eq_true] at hfresh
      obtain ⟨hfreshHead, hfreshRest⟩ := hfresh
      have hfreshA : ∀ c' ∈ rest, ∀ p2, c'.head? = some p2 →
          p2 ∉ p :: ctail := by
        intro c' hc' p2 hp2
        have h3 := List.all_eq_true.mp hfreshHead c' hc'
        rw [hp2] at h3
        exact of_decide_eq_true h3
      simp only [chainsValidB, List.all_cons, Bool.and_eq_true] at hvalid
      obtain ⟨hvc, hvrest⟩ := hvalid
      have hvc' : ∀ r ∈ p :: ctail, (spanAt hf r).isSome := by
        intro r hr
        rcases List.mem_cons.mp hr with h | h
        · subst h; exact hvc.1
        · exact List.all_eq_true.mp hvc.2 r h
      cases hsp : spanAt hf p with
      | none =>
        exfalso
        have := hvc' p (List.mem_cons_self p ctail)
        rw [hsp] at this
        simp at this
      | some startSpan =>
        have hArea : areaAt hf p = startSpan.area := spanAt_areaAt hsp
        by_cases hwalkable : startSpan.area = RC_WALKABLE_AREA
        · by_cases hcond : 0 < (p :: ctail).length - 1 ∧
              SlopeThreshold ≤ (chainTotalDiff hf (p :: ctail) : ℚ) /
                ((((p :: ctail).length - 1 : Nat)) : ℚ)
          · have hred : _EvaluateRuggedArea SlopeThreshold RuggedAreaID hf
                ((p :: ctail) :: rest) =
                _EvaluateRuggedArea SlopeThreshold RuggedAreaID
                  (relabelChain RuggedAreaID hf (p :: ctail)) rest := by
              simp only [_EvaluateRuggedArea, hsp]
              rw [if_neg (not_not_intro hwalkable), if_pos hcond]
            have hlen : 1 < (p :: ctail).length := by
              have := hcond.1; omega
            have hmark : chainMarkedB SlopeThreshold hf (p :: ctail) =
                true := by
              have e1 : decide (areaAt hf p = RC_WALKABLE_AREA) = true := by
                rw [hArea]; exact decide_eq_true hwalkable
              have e2 : decide (1 < (p :: ctail).length) = true :=
                decide_eq_true hlen
              have e3 : decide (SlopeThreshold ≤
                  (chainTotalDiff hf (p :: ctail) : ℚ) /
                    ((((p :: ctail).length - 1 : Nat)) : ℚ)) = true :=
                decide_eq_true hcond.2
              simp only [chainMarkedB, e1, e2, e3, Bool.and_self]
            have hvrest2 : chainsValidB
                (relabelChain RuggedAreaID hf (p :: ctail)) rest = true :=
              chainsValidB_relabel RuggedAreaID hf (p :: ctail) rest hvrest
            rw [hred, ih _ hfreshRest hvrest2 q]
            have hany : (rest.any fun c' =>
                chainMarkedB SlopeThreshold
                  (relabelChain RuggedAreaID hf (p :: ctail)) c' &&
                decide (q ∈ c')) =
                (rest.any fun c' => chainMarkedB SlopeThreshold hf c' &&
                  decide (q ∈ c')) :=
              any_congr_of_mem rest fun c' hc' => by
                rw [chainMarkedB_relabel SlopeThreshold RuggedAreaID hf
                  (p :: ctail) c' (hfreshA c' hc')]
            rw [hany]
            simp only [List.any_cons, hmark, Bool.true_and]
            by_cases hqc : q ∈ p :: ctail
            · rw [show decide (q ∈ p :: ctail) = true from
                decide_eq_true hqc]
              simp only [Bool.true_or]
              simp only [if_true]
              by_cases hrestAny : (rest.any fun c' =>
                  chainMarkedB SlopeThreshold hf c' && decide (q ∈ c')) =
                  true
              · rw [if_pos hrestAny]
              · rw [if_neg hrestAny,
                  areaAt_relabel_mem RuggedAreaID (p :: ctail) hf q hqc
                    hvc']
            · rw [show decide (q ∈ p :: ctail) = false from
                decide_eq_false hqc]
              simp only [Bool.false_or]
              rw [areaAt_relabel_not_mem RuggedAreaID (p :: ctail) hf q
                hqc]
          · have hred : _EvaluateRuggedArea SlopeThreshold RuggedAreaID hf
                ((p :: ctail) :: rest) =
                _EvaluateRuggedArea SlopeThreshold RuggedAreaID hf rest
                := by
              simp only [_EvaluateRuggedArea, hsp]
              rw [if_neg (not_not_intro hwalkable), if_neg hcond]
            have hmarkF : chainMarkedB SlopeThreshold hf (p :: ctail) =
                false := by
              by_cases hlen : 1 < (p :: ctail).length
              · have hnle : ¬ SlopeThreshold ≤
                    (chainTotalDiff hf (p :: ctail) : ℚ) /
                      ((((p :: ctail).length - 1 : Nat)) : ℚ) :=
                  fun hle => hcond ⟨by omega, hle⟩
                simp only [List.length_cons, Nat.add_sub_cancel] at hnle
                simp [chainMarkedB, hnle]
              · have hlen2 : ¬ 0 < ctail.length := by simpa using hlen
                simp [chainMarkedB, hlen2]
            rw [hred, ih hf hfreshRest hvrest q]
            simp [List.any_cons, hmarkF]
        · have hred : _EvaluateRuggedArea SlopeThreshold RuggedAreaID hf
              ((p :: ctail) :: rest) =
              _EvaluateRuggedArea SlopeThreshold RuggedAreaID hf rest := by
            simp only [_EvaluateRuggedArea, hsp]
            rw [if_pos hwalkable]
          rw [hred, ih hf hfreshRest hvrest q]
          have hmarkF : chainMarkedB SlopeThreshold hf (p :: ctail) =
              false := by
            have e1 : decide (areaAt hf p = RC_WALKABLE_AREA) = false := by
              rw [hArea]; exact decide_eq_false hwalkable
            simp [chainMarkedB, e1]
          simp [List.any_cons, hmarkF]

/-- C3: `_EvaluateRuggedArea` relabels exactly as claimed — provided no
chain's first element occurs in an earlier chain (true of the chains the
pass builds, whose heads are the distinct spans of the origin column while
all appended elements lie in later columns) and every handle points at an
existing span, a handle ends up with `RuggedAreaID` exactly when it
belongs to some chain whose first span has the ordinary walkable
classification, which is longer than one element, and whose average
absolute successive floor difference reaches the slope threshold; chains
failing any of these are skipped.  Moreover the Z-axis pass of
`ruggedProcessOrigin` runs only when the origin span's area is not already
`RuggedAreaID` after the X-axis phase. -/
theorem C3_evaluate_rugged (SlopeThreshold : ℚ) (RuggedAreaID : Nat) :
    (∀ (L : List Chain) (hf : Heightfield), headsFreshB L = true →
      chainsValidB hf L = true → ∀ (q : Handle),
      areaAt (_EvaluateRuggedArea SlopeThreshold RuggedAreaID hf L) q =
        if (L.any fun c =>
            chainMarkedB SlopeThreshold hf c && decide (q ∈ c)) = true
        then RuggedAreaID else areaAt hf q) ∧
    (∀ (walkableClimb : Int) (hf : Heightfield) (x z j : Nat) (s : Span),
      (hf.column (x + z * hf.width))[j]? = some s →
      s.area ≠ RC_NULL_AREA →
      areaAt (ruggedOriginXPhase walkableClimb SlopeThreshold RuggedAreaID
          hf x z j) (x + z * hf.width, j) = RuggedAreaID →
      ruggedProcessOrigin walkableClimb SlopeThreshold RuggedAreaID hf x z
          j =
        ruggedOriginXPhase walkableClimb SlopeThreshold RuggedAreaID hf x z
          j) := by
  constructor
  · exact evaluateRugged_areaAt SlopeThreshold RuggedAreaID
  · intro walkableClimb hf x z j s hs hwalk hrid
    simp only [ruggedProcessOrigin, hs]
    rw [if_neg hwalk, if_neg (not_not_intro hrid)]

theorem C3_witness :
    areaAt (_EvaluateRuggedArea 2 7 hfC3 [[(0, 0), (1, 0)]]) (1, 0) = 7 ∧
    ruggedProcessOrigin 3 2 7 hfC3 0 0 0 =
      ruggedOriginXPhase 3 2 7 hfC3 0 0 0 := by
  constructor
  · have h := (C3_evaluate_rugged 2 7).1 [[(0, 0), (1, 0)]] hfC3
      (by decide) (by decide) (1, 0)
    rw [h, if_pos (by decide)]
  · exact (C3_evaluate_rugged 2 7).2 3 hfC3 0 0 0 ⟨0, 0, 63⟩ (by decide)
      (by decide) (by decide)

/-! ## rcFilterRuggedAreaSpans: the chain-extension step -/

theorem appendToFirstMatching_no_match (cur nh : Handle) :
    ∀ (L : List Chain), (∀ c ∈ L, c.getLast? ≠ some cur) →
      appendToFirstMatching cur nh L = L := by
  intro L
  induction L with
  | nil => intro _; rfl
  | cons c rest ih =>
    intro h
    simp only [appendToFirstMatching]
    rw [if_neg (h c (List.mem_cons_self c rest)),
      ih fun c' hc' => h c' (List.mem_cons_of_mem c hc')]

theorem appendToFirstMatching_first (cur nh : Handle) :
    ∀ (L1 : List Chain) (c : Chain) (L2 : List Chain),
      (∀ c' ∈ L1, c'.getLast? ≠ some cur) → c.getLast? = some cur →
      appendToFirstMatching cur nh (L1 ++ c :: L2) =
        L1 ++ (c ++ [nh]) :: L2 := by
  intro L1
  induction L1 with
  | nil =>
    intro c L2 _ hc
    simp only [List.nil_append, appendToFirstMatching]
    rw [if_pos hc]
  | cons c1 rest ih =>
    intro c L2 h1 hc
    simp only [List.cons_append, appendToFirstMatching, List.append_eq]
    rw [if_neg (h1 c1 (List.mem_cons_self c1 rest)),
      ih c L2 (fun c' hc' => h1 c' (List.mem_cons_of_mem c1 hc')) hc]

theorem appendToFirstMatching_growth (ci ni : Nat) (hne : ci ≠ ni)
    (jc jn : Nat) :
    ∀ (chains0 chains : List Chain),
      List.Forall₂ (fun c c2 => c2 = c ∨ ∃ j2, c2 = c ++ [(ni, j2)])
        chains0 chains →
      List.Forall₂ (fun c c2 => c2 = c ∨ ∃ j2, c2 = c ++ [(ni, j2)])
        chains0 (appendToFirstMatching (ci, jc) (ni, jn) chains) := by
  intro chains0 chains h
  induction h with
  | nil => exact List.Forall₂.nil
  | cons hR hrest ih =>
    rename_i c0 c r0 r
    simp only [appendToFirstMatching]
    by_cases htip : c.getLast? = some (ci, jc)
    · rw [if_pos htip]
      refine List.Forall₂.cons ?_ hrest
      rcases hR with hR | ⟨j2, hR⟩
      · subst hR
        exact Or.inr ⟨jn, rfl⟩
      · exfalso
        subst hR
        rw [List.getLast?_append] at htip
        simp at htip
        exact hne htip.1.symm
    · rw [if_neg htip]
      exact List.Forall₂.cons hR ih

theorem ruggedScanNeighbors_growth (walkableClimb : Int)
    (currentFloor : Int) (ci ni : Nat) (hne : ci ≠ ni) (jc : Nat) :
    ∀ (col : Column) (j : Nat) (chains0 chains : List Chain),
      List.Forall₂ (fun c c2 => c2 = c ∨ ∃ j2, c2 = c ++ [(ni, j2)])
        chains0 chains →
      List.Forall₂ (fun c c2 => c2 = c ∨ ∃ j2, c2 = c ++ [(ni, j2)])
        chains0
        (ruggedScanNeighbors walkableClimb currentFloor (ci, jc) ni col j
          chains) := by
  intro col
  induction col with
  | nil => intro j chains0 chains h; exact h
  | cons ns rest ih =>
    intro j chains0 chains h
    simp only [ruggedScanNeighbors]
    by_cases h0 : ns.area = RC_NULL_AREA
    · rw [if_pos h0]
      exact ih (j + 1) chains0 chains h
    · rw [if_neg h0]
      by_cases hd : |currentFloor - (ns.smax : Int)| ≤ walkableClimb
      · rw [if_pos hd]
        exact ih (j + 1) chains0 _
          (appendToFirstMatching_growth ci ni hne jc j chains0 chains h)
      · rw [if_neg hd]
        exact ih (j + 1) chains0 chains h

theorem ruggedScanCurrents_growth (walkableClimb : Int)
    (hf : Heightfield) (ci ni : Nat) (hne : ci ≠ ni) :
    ∀ (col : Column) (j : Nat) (chains0 chains : List Chain),
      List.Forall₂ (fun c c2 => c2 = c ∨ ∃ j2, c2 = c ++ [(ni, j2)])
        chains0 chains →
      List.Forall₂ (fun c c2 => c2 = c ∨ ∃ j2, c2 = c ++ [(ni, j2)])
        chains0
        (ruggedScanCurrents walkableClimb hf ci ni col j chains) := by
  intro col
  induction col with
  | nil => intro j chains0 chains h; exact h
  | cons cs rest ih =>
    intro j chains0 chains h
    simp only [ruggedScanCurrents]
    by_cases h0 : cs.area = RC_NULL_AREA
    · rw [if_pos h0]
      exact h
    · rw [if_neg h0]
      exact ih (j + 1) chains0 _
        (ruggedScanNeighbors_growth walkableClimb (cs.smax : Int) ci ni hne
          j (hf.column ni) 0 chains0 chains h)

/-- C7 (amended): during a sample step of the rugged pass, a qualifying
neighbor span is appended to exactly the first chain whose last element is
the current span (no chain changes when none matches); after the append
the scan continues with the remaining spans of the neighbor column for the
same current span — not with the next current span — so a second chain
sharing the same tip can still be extended by a later qualifying neighbor
span of the same step; and every chain grows by at most one element per
sample step, each extension appending one handle of the neighbor
column. -/
theorem C7_rugged_step (walkableClimb : Int) :
    (∀ (cur nh : Handle) (L : List Chain),
      (∀ c ∈ L, c.getLast? ≠ some cur) →
      appendToFirstMatching cur nh L = L) ∧
    (∀ (cur nh : Handle) (L1 : List Chain) (c : Chain) (L2 : List Chain),
      (∀ c' ∈ L1, c'.getLast? ≠ some cur) → c.getLast? = some cur →
      appendToFirstMatching cur nh (L1 ++ c :: L2) =
        L1 ++ (c ++ [nh]) :: L2) ∧
    (∀ (currentFloor : Int) (cur : Handle) (ni : Nat) (ns : Span)
      (rest : Column) (j : Nat) (chains : List Chain),
      ns.area ≠ RC_NULL_AREA →
      |currentFloor - (ns.smax : Int)| ≤ walkableClimb →
      ruggedScanNeighbors walkableClimb currentFloor cur ni (ns :: rest) j
          chains =
        ruggedScanNeighbors walkableClimb currentFloor cur ni rest (j + 1)
          (appendToFirstMatching cur (ni, j) chains)) ∧
    (∀ (hf : Heightfield) (ci ni : Nat), ci ≠ ni →
      ∀ (col : Column) (j : Nat) (chains : List Chain),
      List.Forall₂ (fun c c2 => c2 = c ∨ ∃ j2, c2 = c ++ [(ni, j2)])
        chains
        (ruggedScanCurrents walkableClimb hf ci ni col j chains)) := by
  refine ⟨appendToFirstMatching_no_match,
    appendToFirstMatching_first, ?_, ?_⟩
  · intro currentFloor cur ni ns rest j chains h0 hd
    simp only [ruggedScanNeighbors]
    rw [if_neg h0, if_pos hd]
  · intro hf ci ni hne col j chains
    exact ruggedScanCurrents_growth walkableClimb hf ci ni hne col j
      chains chains
      (List.forall₂_same.mpr fun c _ => Or.inl rfl)

/-- C7, counterexample: with two chains converged on the same tip (the
single span of the middle column of `hfC7`) and two qualifying spans in
the neighbor column, the code appends the first neighbor span to the first
chain and then — continuing the neighbor scan for the same current span —
appends the second neighbor span to the second chain; the claimed variant,
which moves to the next current span right after an append, leaves the
second chain unextended, so the two disagree. -/
theorem C7_counterexample :
    ruggedScanCurrents 3 hfC7 1 2 (hfC7.column 1) 0 chainsC7 =
      [[(0, 0), (1, 0), (2, 0)], [(0, 1), (1, 0), (2, 1)]] ∧
    ruggedScanCurrentsClaimed 3 hfC7 1 2 (hfC7.column 1) 0 chainsC7 =
      [[(0, 0), (1, 0), (2, 0)], [(0, 1), (1, 0)]] ∧
    ruggedScanCurrents 3 hfC7 1 2 (hfC7.column 1) 0 chainsC7 ≠
      ruggedScanCurrentsClaimed 3 hfC7 1 2 (hfC7.column 1) 0 chainsC7 := by
  decide

theorem C7_witness :
    appendToFirstMatching (1, 0) (2, 1)
        [[(0, 0), (1, 0), (2, 0)], [(0, 1), (1, 0)]] =
      [[(0, 0), (1, 0), (2, 0)], [(0, 1), (1, 0), (2, 1)]] ∧
    List.Forall₂ (fun c c2 => c2 = c ∨ ∃ j2, c2 = c ++ [(2, j2)])
      chainsC7 (ruggedScanCurrents 3 hfC7 1 2 (hfC7.column 1) 0 chainsC7)
    := by
  constructor
  · exact (C7_rugged_step 3).2.1 (1, 0) (2, 1)
      [[(0, 0), (1, 0), (2, 0)]] [(0, 1), (1, 0)] [] (by decide)
      (by decide)
  · exact (C7_rugged_step 3).2.2.2 hfC7 1 2 (by decide) (hfC7.column 1) 0
      chainsC7

end Recast
